import Mathlib

/-!
# RaySnake: a shallow embedding of the game rules of `RaySnake/main.cpp`

The embedding follows the source function by function.

* `Vector2` holds two C `float`s in the source.  Every value the game stores
  in one is a small integer (cell coordinates and unit steps), on which float
  addition and comparison are exact, so the components are modelled as `Int`,
  with `Vector2Add` the integer sum and `Vector2Equals` equality.  That is
  what the source computes while magnitudes stay below `10 ^ 6`.  For
  coordinates beyond, `Vector2AddFloat` and `Vector2EqualsEpsilon` model the
  rounding of float addition and the tolerance of the raymath comparison, and
  the functions that depend on them are repeated with the operation as a
  parameter (`ElementInDequeWith`, `Snake.UpdateWith`, ...).
* The clock (`GetTime`, `lastUpdateTime`, `updateTime`) is a C `double` in the
  source and is modelled by exact rationals.
* `score` is an `unsigned int`: a natural number below `2 ^ 32`, incremented
  modulo `2 ^ 32`.
* The collaborators the rules read from are made explicit inputs: the keys
  reported by `IsKeyPressed` during the frame, the reading of `GetTime`, and
  the successive pairs produced by `GetRandomValue`.
* A function returns `none` where the source has no result: an access to an
  element of an empty `std::deque` (undefined behaviour), or a loop that has
  not ended when the supplied random draws are used up.
* Drawing and sound playback do not feed back into the rules and are left out.
-/

namespace RaySnake

/-! ## Constants -/

/-- Board width in cells (`cellsWidth`). -/
def cellsWidth : Int := 25

/-- Board height in cells (`cellsHeight`). -/
def cellsHeight : Int := 40

/-- Seconds between two timer moves (`updateTime`). -/
def updateTime : ℚ := 1 / 10

/-! ## Vectors -/

/-- The raylib `Vector2`, restricted to integer components. -/
structure Vector2 where
  x : Int
  y : Int
deriving DecidableEq

/-- The raymath `Vector2Add`: componentwise sum (exact in `float` while the
magnitudes stay below `2 ^ 24`; see `Vector2AddFloat`). -/
def Vector2Add (v1 v2 : Vector2) : Vector2 :=
  { x := v1.x + v2.x, y := v1.y + v2.y }

/-- The raymath `Vector2Equals`: both components agree.  The source compares
each pair of components up to `0.000001` times the larger magnitude; on the
integers of magnitude below `10 ^ 6` that the game stores, this is equality
(see `Vector2EqualsEpsilon` for the comparison with its tolerance). -/
def Vector2Equals (p q : Vector2) : Bool :=
  p.x == q.x && p.y == q.y

/-! ## Scheduler -/

/-- The function `IsTimeElapsed`, with the global `lastUpdateTime` passed in
and the value of `GetTime()` given as `currentTime`.  Returns the result and
the new value of `lastUpdateTime`. -/
def IsTimeElapsed (interval : ℚ) (currentTime lastUpdateTime : ℚ) : Bool × ℚ :=
  if currentTime - lastUpdateTime ≥ interval then (true, currentTime)
  else (false, lastUpdateTime)

/-! ## Membership test -/

/-- The function `ElementInDeque`.  The loop runs over the deque from the
front; a match breaks out of the loop to the final `return true`, a mismatch at
the last index (`i == deque.size() - 1`, that is: nothing follows) returns
`false`.  On the empty deque the loop body never runs and the final
`return true` is reached. -/
def ElementInDeque : List Vector2 → Vector2 → Bool
  | [], _ => true
  | d :: rest, element =>
    if Vector2Equals d element then true
    else if rest.isEmpty then false
    else ElementInDeque rest element

/-! ## Food -/

/-- The method `Food::GenerateRandomPosition`.  `draws` lists the pairs
`(GetRandomValue(0, cellsWidth - 1), GetRandomValue(0, cellsHeight - 1))` the
loop will see, in order.  The loop ends at the first pair for which
`ElementInDeque` is false; the result is that pair together with the draws not
yet consumed.  `none`: every supplied draw was rejected. -/
def Food.GenerateRandomPosition : List Vector2 → List Vector2 → Option (Vector2 × List Vector2)
  | [], _ => none
  | result :: rest, snakeBody =>
    if !ElementInDeque snakeBody result then some (result, rest)
    else Food.GenerateRandomPosition rest snakeBody

/-! ## Input -/

/-- What `IsKeyPressed` answers during one frame, for the nine keys the rules
look at. -/
structure Keys where
  up : Bool
  down : Bool
  right : Bool
  left : Bool
  w : Bool
  s : Bool
  d : Bool
  a : Bool
  space : Bool
deriving DecidableEq

/-- No key pressed this frame. -/
def Keys.none : Keys :=
  { up := false, down := false, right := false, left := false,
    w := false, s := false, d := false, a := false, space := false }

/-! ## Snake -/

/-- The private fields of `class Snake`. -/
structure Snake where
  body : List Vector2
  direction : Vector2
  prevDirection : Vector2
  addingSegment : Bool
deriving DecidableEq

/-- The default member initialisers of `class Snake`. -/
def Snake.initial : Snake :=
  { body := [⟨6, 9⟩, ⟨5, 9⟩, ⟨4, 9⟩]
    direction := ⟨1, 0⟩
    prevDirection := ⟨1, 0⟩
    addingSegment := false }

/-- The method `Snake::AddSegment`. -/
def Snake.AddSegment (s : Snake) : Snake :=
  { s with addingSegment := true }

/-- The method `Snake::GetBody`. -/
def Snake.GetBody (s : Snake) : List Vector2 :=
  s.body

/-- The method `Snake::GetTailPosition`: `body[body.size() - 1]`, undefined on
an empty body. -/
def Snake.GetTailPosition (s : Snake) : Option Vector2 :=
  s.body.getLast?

/-- The method `Snake::GetHeadPosition`: `body[0]`, undefined on an empty
body. -/
def Snake.GetHeadPosition (s : Snake) : Option Vector2 :=
  s.body.head?

/-- The method `Snake::Reset`.  It assigns `body` and `direction` only. -/
def Snake.Reset (s : Snake) : Snake :=
  { s with body := [⟨6, 9⟩, ⟨5, 9⟩, ⟨4, 9⟩], direction := ⟨1, 0⟩ }

/-- The method `Snake::HandleInput`: four successive `if`s, each reading the
direction the previous ones left.  In C, `&&` binds tighter than `||`, so each
condition is `arrow || (letter && guard && guard)`. -/
def Snake.HandleInput (s : Snake) (k : Keys) : Snake :=
  let s1 := if k.up || (k.w && s.prevDirection.y != 1 && s.direction.y != 1)
    then { s with direction := ⟨0, -1⟩ } else s
  let s2 := if k.down || (k.s && s1.prevDirection.y != -1 && s1.direction.y != -1)
    then { s1 with direction := ⟨0, 1⟩ } else s1
  let s3 := if k.right || (k.d && s2.prevDirection.x != -1 && s2.direction.x != -1)
    then { s2 with direction := ⟨1, 0⟩ } else s2
  if k.left || (k.a && s3.prevDirection.x != 1 && s3.direction.x != 1)
    then { s3 with direction := ⟨-1, 0⟩ } else s3

/-- The method `Snake::Move`: `pop_back`, then `push_front` of `body[0]` plus
the direction, then `prevDirection = direction`.  Undefined when the body is
empty (`pop_back`) or has one element (`body[0]` after the pop). -/
def Snake.Move (s : Snake) : Option Snake :=
  match s.body.dropLast with
  | [] => none
  | front :: rest =>
    some { s with body := Vector2Add front s.direction :: front :: rest
                  prevDirection := s.direction }

/-- The method `Snake::Update`, with the frame's keys, the value `GetTime()`
would return and the global `lastUpdateTime`.  Returns the snake and the new
`lastUpdateTime`.  The clock is read only in the branch without growth. -/
def Snake.Update (s : Snake) (k : Keys) (currentTime lastUpdateTime : ℚ) :
    Option (Snake × ℚ) :=
  if s.addingSegment then
    match s.GetTailPosition with
    | none => none
    | some tail =>
      let grown : Snake :=
        { s with body := s.body ++ [Vector2Add tail s.direction], addingSegment := false }
      some (grown.HandleInput k, lastUpdateTime)
  else
    match IsTimeElapsed updateTime currentTime lastUpdateTime with
    | (true, t) =>
      match s.Move with
      | none => none
      | some moved => some (moved.HandleInput k, t)
    | (false, t) => some (s.HandleInput k, t)

/-! ## Game -/

/-- The state `Game::Update` works on: the fields of `class Game` (the food is
its `position`), and the global `lastUpdateTime`. -/
structure Game where
  snake : Snake
  food : Vector2
  score : Nat
  isRunning : Bool
  lastUpdateTime : ℚ
deriving DecidableEq

/-- What one call of `Game::Update` reads from outside: the keys, the clock,
and the random pairs waiting to be drawn. -/
structure Frame where
  keys : Keys
  time : ℚ
  draws : List Vector2

/-- The constructor `Game::Game`: a fresh snake, the food placed off its body,
score zero, running; `lastUpdateTime` starts at `0`. -/
def Game.initial (draws : List Vector2) : Option Game :=
  match Food.GenerateRandomPosition draws Snake.initial.GetBody with
  | none => none
  | some (position, _) =>
    some { snake := Snake.initial, food := position, score := 0,
           isRunning := true, lastUpdateTime := 0 }

/-- The method `Game::GetScore`. -/
def Game.GetScore (g : Game) : Nat :=
  g.score

/-- The method `Game::GameOver` (the sound aside). -/
def Game.GameOver (g : Game) : Game :=
  { g with isRunning := false }

/-- The method `Game::CheckCollisionWithFood`; also returns the draws left. -/
def Game.CheckCollisionWithFood (g : Game) (draws : List Vector2) :
    Option (Game × List Vector2) :=
  match g.snake.GetHeadPosition with
  | none => none
  | some head =>
    if Vector2Equals head g.food then
      let snake := g.snake.AddSegment
      match Food.GenerateRandomPosition draws snake.GetBody with
      | none => none
      | some (position, rest) =>
        some ({ g with snake := snake, food := position,
                       score := (g.score + 1) % 2 ^ 32 }, rest)
    else some (g, draws)

/-- The method `Game::CheckCollisionWithEdges`: two successive `if`s on the
head's `x` and `y`. -/
def Game.CheckCollisionWithEdges (g : Game) : Option Game :=
  match g.snake.GetHeadPosition with
  | none => none
  | some head =>
    let g1 := if head.x == cellsWidth || head.x == -1 then g.GameOver else g
    let g2 := if head.y == cellsHeight || head.y == -1 then g1.GameOver else g1
    some g2

/-- The method `Game::CheckCollisionWithBody`: the body with its front popped
(undefined on an empty body) is searched for `body[0]`. -/
def Game.CheckCollisionWithBody (g : Game) : Option Game :=
  match g.snake.GetBody with
  | [] => none
  | head :: headlessBody =>
    if ElementInDeque headlessBody head then some g.GameOver else some g

/-- The condition of the first `if` of `Game::Update` on the keys: any of the
nine keys pressed. -/
def Keys.anyPressed (k : Keys) : Bool :=
  k.up || k.down || k.right || k.left || k.w || k.s || k.d || k.a || k.space

/-- The first `if` of `Game::Update`: on a key press while not running, reset
the snake, place the food, zero the score, run.  Also returns the draws left. -/
def Game.resetStep (g : Game) (f : Frame) : Option (Game × List Vector2) :=
  if f.keys.anyPressed && !g.isRunning then
    let snake := g.snake.Reset
    match Food.GenerateRandomPosition f.draws snake.GetBody with
    | none => none
    | some (position, rest) =>
      some ({ g with snake := snake, food := position, score := 0, isRunning := true }, rest)
  else some (g, f.draws)

/-- The second `if` of `Game::Update`: while running, update the snake and run
the three collision checks in order. -/
def Game.runStep (g : Game) (k : Keys) (time : ℚ) (draws : List Vector2) : Option Game :=
  if g.isRunning then
    match g.snake.Update k time g.lastUpdateTime with
    | none => none
    | some (snake, t) =>
      match ({ g with snake := snake, lastUpdateTime := t } : Game).CheckCollisionWithFood draws with
      | none => none
      | some (g1, _) =>
        match g1.CheckCollisionWithEdges with
        | none => none
        | some g2 => g2.CheckCollisionWithBody
  else some g

/-- The method `Game::Update`: its two `if`s in sequence. -/
def Game.Update (g : Game) (f : Frame) : Option Game :=
  match g.resetStep f with
  | none => none
  | some (g1, draws) => g1.runStep f.keys f.time draws

/-! ## Reachable states -/

/-- A pair `GetRandomValue(0, cellsWidth - 1)`, `GetRandomValue(0, cellsHeight - 1)`
can take. -/
def DrawInRange (p : Vector2) : Prop :=
  0 ≤ p.x ∧ p.x ≤ cellsWidth - 1 ∧ 0 ≤ p.y ∧ p.y ≤ cellsHeight - 1

instance (p : Vector2) : Decidable (DrawInRange p) := by
  unfold DrawInRange; infer_instance

/-- Snake states (with the scheduler's `lastUpdateTime`) that calls of
`Update`, `AddSegment` and `Reset` can produce from a constructed snake. -/
inductive Snake.Reachable : Snake → ℚ → Prop
  | start : Snake.Reachable Snake.initial 0
  | update {s : Snake} {t : ℚ} (k : Keys) (time : ℚ) {s1 : Snake} {t1 : ℚ} :
      Snake.Reachable s t → s.Update k time t = some (s1, t1) → Snake.Reachable s1 t1
  | addSegment {s : Snake} {t : ℚ} : Snake.Reachable s t → Snake.Reachable s.AddSegment t
  | reset {s : Snake} {t : ℚ} : Snake.Reachable s t → Snake.Reachable s.Reset t

/-- Game states that calls of `Game::Update` can produce from a constructed
game, whatever the keys and the clock readings, with random draws in range. -/
inductive Game.Reachable : Game → Prop
  | start (draws : List Vector2) {g : Game} :
      (∀ p ∈ draws, DrawInRange p) → Game.initial draws = some g → Game.Reachable g
  | update {g : Game} (f : Frame) {g1 : Game} :
      Game.Reachable g → (∀ p ∈ f.draws, DrawInRange p) → g.Update f = some g1 →
      Game.Reachable g1

/-! ## Concrete states and frames used in the examples below -/

/-- Only the up arrow pressed. -/
def Keys.onlyUp : Keys := { Keys.none with up := true }

/-- Only the space bar pressed. -/
def Keys.onlySpace : Keys := { Keys.none with space := true }

/-- A running game whose food lies under the head of the constructed snake. -/
def Game.foodUnderHead : Game :=
  { snake := Snake.initial, food := ⟨6, 9⟩, score := 0, isRunning := true, lastUpdateTime := 0 }

/-- A frame without keys in which the timer is due. -/
def Frame.timerDue : Frame :=
  { keys := Keys.none, time := 1 / 5, draws := [⟨0, 0⟩] }

/-- A frame without keys in which the timer is not yet due. -/
def Frame.timerNotDue : Frame :=
  { keys := Keys.none, time := 1 / 20, draws := [⟨0, 0⟩] }

/-- A running game whose food lies one cell ahead of the constructed snake. -/
def Game.foodAhead : Game :=
  { snake := Snake.initial, food := ⟨7, 9⟩, score := 0, isRunning := true, lastUpdateTime := 0 }

/-- The constructed snake after one timer move to the right. -/
def Snake.movedRight : Snake :=
  { body := [⟨7, 9⟩, ⟨6, 9⟩, ⟨5, 9⟩], direction := ⟨1, 0⟩, prevDirection := ⟨1, 0⟩,
    addingSegment := false }

/-- A running game whose head has just stepped over the right border. -/
def Game.headPastRightBorder : Game :=
  { snake := { body := [⟨25, 9⟩, ⟨24, 9⟩, ⟨23, 9⟩], direction := ⟨1, 0⟩,
               prevDirection := ⟨1, 0⟩, addingSegment := false },
    food := ⟨3, 3⟩, score := 0, isRunning := true, lastUpdateTime := 2 }

/-- A running game whose head has turned back onto the fourth segment. -/
def Game.headOnBody : Game :=
  { snake := { body := [⟨5, 5⟩, ⟨5, 6⟩, ⟨6, 6⟩, ⟨6, 5⟩, ⟨5, 5⟩, ⟨4, 5⟩], direction := ⟨0, -1⟩,
               prevDirection := ⟨0, -1⟩, addingSegment := false },
    food := ⟨3, 3⟩, score := 3, isRunning := true, lastUpdateTime := 2 }

/-- A game that has just ended at the right border. -/
def Game.endedAtRightBorder : Game :=
  Game.headPastRightBorder.GameOver

/-- A frame one second after the last tick, with the up arrow pressed and the
random generator about to produce `(7,9)` and then `(4,9)`. -/
def Frame.upAfterOneSecond : Frame :=
  { keys := Keys.onlyUp, time := 3, draws := [⟨7, 9⟩, ⟨4, 9⟩] }

/-- A frame a twentieth of a second after the last tick, with the space bar
pressed and the random generator about to produce `(6,9)` and then `(0,0)`. -/
def Frame.spaceAtOnce : Frame :=
  { keys := Keys.onlySpace, time := 41 / 20, draws := [⟨6, 9⟩, ⟨0, 0⟩] }

/-- Only the W key pressed. -/
def Keys.onlyW : Keys := { Keys.none with w := true }

/-- The first frame of the run below: the timer is due, the up arrow is
pressed, and the random generator is about to produce `(5,8)`. -/
def Frame.upTimerDue : Frame :=
  { keys := Keys.onlyUp, time := 1 / 5, draws := [⟨5, 8⟩] }

/-- The second frame of the run below: no key, a hundredth of a second later. -/
def Frame.idle : Frame :=
  { keys := Keys.none, time := 21 / 100, draws := [] }

/-- The game `Game.foodAhead` after the frame `Frame.upTimerDue`: the snake has
moved onto the food at `(7,9)` and turned upwards, the new food is at `(5,8)`,
growth is pending. -/
def Game.justEaten : Game :=
  { snake := { body := [⟨7, 9⟩, ⟨6, 9⟩, ⟨5, 9⟩], direction := ⟨0, -1⟩,
               prevDirection := ⟨1, 0⟩, addingSegment := true },
    food := ⟨5, 8⟩, score := 1, isRunning := true, lastUpdateTime := 1 / 5 }

/-- The game `Game.justEaten` after the frame `Frame.idle`: the new segment was
appended at tail plus direction, which is `(5,8)`. -/
def Game.grownOntoFood : Game :=
  { snake := { body := [⟨7, 9⟩, ⟨6, 9⟩, ⟨5, 9⟩, ⟨5, 8⟩], direction := ⟨0, -1⟩,
               prevDirection := ⟨1, 0⟩, addingSegment := false },
    food := ⟨5, 8⟩, score := 1, isRunning := true, lastUpdateTime := 1 / 5 }

/-- A snake three timer moves after turning downwards. -/
def Snake.movingDown : Snake :=
  { body := [⟨6, 12⟩, ⟨6, 11⟩, ⟨6, 10⟩], direction := ⟨0, 1⟩, prevDirection := ⟨0, 1⟩,
    addingSegment := false }

/-! ## Geometry of the invariants -/

/-- One of the four unit vectors. -/
def UnitStep (v : Vector2) : Prop :=
  v = ⟨1, 0⟩ ∨ v = ⟨-1, 0⟩ ∨ v = ⟨0, 1⟩ ∨ v = ⟨0, -1⟩

/-- Two cells one grid step apart: their difference is a unit vector. -/
def OneStepApart (a b : Vector2) : Prop :=
  UnitStep ⟨a.x - b.x, a.y - b.y⟩

instance (v : Vector2) : Decidable (UnitStep v) := by
  unfold UnitStep; infer_instance

instance (a b : Vector2) : Decidable (OneStepApart a b) := by
  unfold OneStepApart; infer_instance

/-! ## Successive calls of the scheduler -/

/-- The clock readings at which successive calls of `IsTimeElapsed` return
true, when the calls read the times `times` in order and the stored
`lastUpdateTime` is `lastUpdateTime` before the first call. -/
def IsTimeElapsed.ticks (interval : ℚ) : ℚ → List ℚ → List ℚ
  | _, [] => []
  | lastUpdateTime, currentTime :: later =>
    match IsTimeElapsed interval currentTime lastUpdateTime with
    | (true, stored) => currentTime :: IsTimeElapsed.ticks interval stored later
    | (false, stored) => IsTimeElapsed.ticks interval stored later

/-! ## Invariants of the reachable game states -/

/-- A cell at most one step outside the board: where a head can be right after
a move that started inside the board. -/
def NearBoard (p : Vector2) : Prop :=
  -1 ≤ p.x ∧ p.x ≤ cellsWidth ∧ -1 ≤ p.y ∧ p.y ≤ cellsHeight

/-- What holds of a game between two calls of `Game::Update`: the food is on
the board; body length plus pending growth is score plus 3; growth is pending
only while running; and while running the direction is a unit vector and the
body is a sequence `pre` of distinct board cells, without the food, followed by
at most one more segment `suf` (none when growth is pending). -/
def Game.Sound (g : Game) : Prop :=
  DrawInRange g.food ∧
  g.snake.body.length + (if g.snake.addingSegment = true then 1 else 0) = g.score + 3 ∧
  (g.snake.addingSegment = true → g.isRunning = true) ∧
  (g.isRunning = true →
    UnitStep g.snake.direction ∧
    ∃ pre suf, g.snake.body = pre ++ suf ∧
      suf.length + (if g.snake.addingSegment = true then 1 else 0) ≤ 1 ∧
      pre.Nodup ∧ (∀ p ∈ pre, DrawInRange p) ∧ g.food ∉ pre)

/-- What holds of a running game inside `Game::Update`, between `snake.Update()`
and the collision checks: no growth is pending; the body length is score plus
3; the body is a head at most one step outside the board, then a sequence `pre`
of distinct board cells without the food, then at most one more segment `suf`;
and the head is off the food when there is such a segment. -/
def Game.Mid (g : Game) : Prop :=
  DrawInRange g.food ∧
  g.snake.body.length = g.score + 3 ∧
  g.snake.addingSegment = false ∧
  UnitStep g.snake.direction ∧
  ∃ head pre suf, g.snake.body = head :: (pre ++ suf) ∧
    suf.length ≤ 1 ∧ pre.Nodup ∧ (∀ p ∈ pre, DrawInRange p) ∧ g.food ∉ pre ∧
    NearBoard head ∧ (suf ≠ [] → head ≠ g.food)

/-- Only the left arrow pressed. -/
def Keys.onlyLeft : Keys := { Keys.none with left := true }

/-- The game constructed when the first random draw is `(0,0)`. -/
def Game.foodInCorner : Game :=
  { snake := Snake.initial, food := ⟨0, 0⟩, score := 0, isRunning := true, lastUpdateTime := 0 }

/-- A frame before the first tick, with the left arrow pressed. -/
def Frame.leftEarly : Frame :=
  { keys := Keys.onlyLeft, time := 1 / 20, draws := [] }

/-- A frame without keys at the first tick. -/
def Frame.firstTick : Frame :=
  { keys := Keys.none, time := 1 / 10, draws := [] }

/-- The game `Game.foodInCorner` after the frame `Frame.leftEarly`: the snake
has not moved and now points left, towards its own neck. -/
def Game.turnedBack : Game :=
  { snake := { body := [⟨6, 9⟩, ⟨5, 9⟩, ⟨4, 9⟩], direction := ⟨-1, 0⟩,
               prevDirection := ⟨1, 0⟩, addingSegment := false },
    food := ⟨0, 0⟩, score := 0, isRunning := true, lastUpdateTime := 0 }

/-- The game `Game.turnedBack` after the frame `Frame.firstTick`: the head has
moved onto the neck and the game is over. -/
def Game.bitItself : Game :=
  { snake := { body := [⟨5, 9⟩, ⟨6, 9⟩, ⟨5, 9⟩], direction := ⟨-1, 0⟩,
               prevDirection := ⟨-1, 0⟩, addingSegment := false },
    food := ⟨0, 0⟩, score := 0, isRunning := false, lastUpdateTime := 1 / 10 }

/-! ## Coordinates far from the board: the float arithmetic of raymath

The definitions above take `Vector2Add` and `Vector2Equals` on integers, which
is what the source computes as long as the coordinates are small.  The
definitions of this section model what the source computes on integer-valued
floats of any size (`float` being the IEEE 32-bit format, each operation rounded
to the nearest float), and repeat the functions that depend on it with the
operation as a parameter. -/

/-- The number of low bits a natural number loses when it is cut to a 24-bit
significand: the least `e` with `m / 2 ^ e < 2 ^ 24` (the first argument bounds
the recursion; `m` itself is enough). -/
def floatExponent : Nat → Nat → Nat
  | 0, _ => 0
  | fuel + 1, m => if m < 2 ^ 24 then 0 else floatExponent fuel (m / 2) + 1

/-- The nearest C `float` (24-bit significand, ties to the even significand) to
an integer, the range limit of `float` aside.  Integers of magnitude up to
`2 ^ 24` are floats themselves. -/
def roundToFloat (n : Int) : Int :=
  if n.natAbs ≤ 2 ^ 24 then n
  else
    let e := floatExponent n.natAbs n.natAbs
    let q := n.natAbs / 2 ^ e
    let r := n.natAbs % 2 ^ e
    let m := if 2 * r > 2 ^ e ∨ (2 * r = 2 ^ e ∧ q % 2 = 1) then q + 1 else q
    Int.sign n * ((m * 2 ^ e : Nat) : Int)

/-- The raymath `Vector2Add` as computed in `float`: each component is the
exact sum rounded to the nearest float. -/
def Vector2AddFloat (v1 v2 : Vector2) : Vector2 :=
  { x := roundToFloat (v1.x + v2.x), y := roundToFloat (v1.y + v2.y) }

/-- One component of the raymath `Vector2Equals`, as computed in `float`:
`fabsf(a - b) <= EPSILON * fmaxf(1.0f, fmaxf(fabsf(a), fabsf(b)))`.  `EPSILON` is
`0.000001f`, the float `8796093 / 2 ^ 43`.  The difference and the product are
each rounded to the nearest float; both sides are multiplied by `2 ^ 43` here. -/
def componentEqualsEpsilon (a b : Int) : Bool :=
  decide (2 ^ 43 * (roundToFloat (a - b)).natAbs ≤
    (roundToFloat ((8796093 * max 1 (max a.natAbs b.natAbs) : Nat) : Int)).natAbs)

/-- The raymath `Vector2Equals` with its tolerance: both components agree up to
`EPSILON` times the larger magnitude. -/
def Vector2EqualsEpsilon (p q : Vector2) : Bool :=
  componentEqualsEpsilon p.x q.x && componentEqualsEpsilon p.y q.y

/-- Both coordinates of magnitude below `10 ^ 6`: where `Vector2EqualsEpsilon`
is equality. -/
def SmallCoordinates (p : Vector2) : Prop :=
  p.x.natAbs < 1000000 ∧ p.y.natAbs < 1000000

instance (p : Vector2) : Decidable (SmallCoordinates p) := by
  unfold SmallCoordinates; infer_instance

/-- The function `ElementInDeque` with the comparison it calls as a parameter;
`ElementInDeque` is its instance at `Vector2Equals`. -/
def ElementInDequeWith (equals : Vector2 → Vector2 → Bool) : List Vector2 → Vector2 → Bool
  | [], _ => true
  | d :: rest, element =>
    if equals d element then true
    else if rest.isEmpty then false
    else ElementInDequeWith equals rest element

/-- The method `Food::GenerateRandomPosition` with the comparison as a
parameter. -/
def Food.GenerateRandomPositionWith (equals : Vector2 → Vector2 → Bool) :
    List Vector2 → List Vector2 → Option (Vector2 × List Vector2)
  | [], _ => none
  | result :: rest, snakeBody =>
    if !ElementInDequeWith equals snakeBody result then some (result, rest)
    else Food.GenerateRandomPositionWith equals rest snakeBody

/-- The method `Game::CheckCollisionWithBody` with the comparison as a
parameter. -/
def Game.CheckCollisionWithBodyWith (equals : Vector2 → Vector2 → Bool) (g : Game) :
    Option Game :=
  match g.snake.GetBody with
  | [] => none
  | head :: headlessBody =>
    if ElementInDequeWith equals headlessBody head then some g.GameOver else some g

/-- The method `Snake::Move` with the addition as a parameter. -/
def Snake.MoveWith (add : Vector2 → Vector2 → Vector2) (s : Snake) : Option Snake :=
  match s.body.dropLast with
  | [] => none
  | front :: rest =>
    some { s with body := add front s.direction :: front :: rest
                  prevDirection := s.direction }

/-- The method `Snake::Update` with the addition as a parameter. -/
def Snake.UpdateWith (add : Vector2 → Vector2 → Vector2) (s : Snake) (k : Keys)
    (currentTime lastUpdateTime : ℚ) : Option (Snake × ℚ) :=
  if s.addingSegment then
    match s.GetTailPosition with
    | none => none
    | some tail =>
      let grown : Snake :=
        { s with body := s.body ++ [add tail s.direction], addingSegment := false }
      some (grown.HandleInput k, lastUpdateTime)
  else
    match IsTimeElapsed updateTime currentTime lastUpdateTime with
    | (true, t) =>
      match s.MoveWith add with
      | none => none
      | some moved => some (moved.HandleInput k, t)
    | (false, t) => some (s.HandleInput k, t)

/-- Snake states that calls of `Update`, `AddSegment` and `Reset` can produce
from a constructed snake, with the addition as a parameter. -/
inductive Snake.ReachableWith (add : Vector2 → Vector2 → Vector2) : Snake → ℚ → Prop
  | start : Snake.ReachableWith add Snake.initial 0
  | update {s : Snake} {t : ℚ} (k : Keys) (time : ℚ) {s1 : Snake} {t1 : ℚ} :
      Snake.ReachableWith add s t → s.UpdateWith add k time t = some (s1, t1) →
      Snake.ReachableWith add s1 t1
  | addSegment {s : Snake} {t : ℚ} :
      Snake.ReachableWith add s t → Snake.ReachableWith add s.AddSegment t
  | reset {s : Snake} {t : ℚ} : Snake.ReachableWith add s t → Snake.ReachableWith add s.Reset t

/-- A running game far to the right of the board. -/
def Game.farRight : Game :=
  { snake := { body := [⟨2000001, 0⟩, ⟨2000000, 0⟩, ⟨1999999, 0⟩], direction := ⟨1, 0⟩,
               prevDirection := ⟨1, 0⟩, addingSegment := false },
    food := ⟨3, 3⟩, score := 0, isRunning := true, lastUpdateTime := 0 }

/-- The constructed snake after `n` timer moves to the right. -/
def Snake.cruising (n : Nat) : Snake :=
  { body := [⟨6 + n, 9⟩, ⟨5 + n, 9⟩, ⟨4 + n, 9⟩], direction := ⟨1, 0⟩,
    prevDirection := ⟨1, 0⟩, addingSegment := false }

/-- The snake one timer move after its head has reached `x = 2 ^ 24`: in float
arithmetic `16777216 + 1` is `16777216`, so head and neck are the same cell. -/
def Snake.stuckAtFloatLimit : Snake :=
  { body := [⟨16777216, 9⟩, ⟨16777216, 9⟩, ⟨16777215, 9⟩], direction := ⟨1, 0⟩,
    prevDirection := ⟨1, 0⟩, addingSegment := false }

/-- Two cells of which one is the other plus a unit vector, in the float
arithmetic of `Vector2AddFloat`. -/
def OneFloatStepApart (a b : Vector2) : Prop :=
  ∃ d, UnitStep d ∧ (a = Vector2AddFloat b d ∨ b = Vector2AddFloat a d)

/-- Both coordinates of magnitude below `2 ^ 24`: where adding a unit vector in
`float` is exact. -/
def BelowFloatLimit (p : Vector2) : Prop :=
  p.x.natAbs < 2 ^ 24 ∧ p.y.natAbs < 2 ^ 24

instance (p : Vector2) : Decidable (BelowFloatLimit p) := by
  unfold BelowFloatLimit; infer_instance

/-! ## Basic facts -/

theorem Vector2Equals_iff (p q : Vector2) : Vector2Equals p q = true ↔ p = q := by
  cases p; cases q; simp [Vector2Equals]

theorem ElementInDeque_nil (e : Vector2) : ElementInDeque [] e = true := rfl

theorem ElementInDeque_cons (d : Vector2) (rest : List Vector2) (e : Vector2) :
    ElementInDeque (d :: rest) e = true ↔ e ∈ d :: rest := by
  induction rest generalizing d with
  | nil =>
    by_cases h : Vector2Equals d e = true
    · have hd := (Vector2Equals_iff d e).mp h
      rw [ElementInDeque, if_pos h]
      simp [hd]
    · have hne : ¬ d = e := fun hd => h ((Vector2Equals_iff d e).mpr hd)
      have hne2 : ¬ e = d := fun hd => hne hd.symm
      simp [ElementInDeque, h, hne2]
  | cons d1 rest ih =>
    by_cases h : Vector2Equals d e = true
    · have hd := (Vector2Equals_iff d e).mp h
      rw [ElementInDeque, if_pos h]
      simp [hd]
    · have hne : ¬ d = e := fun hd => h ((Vector2Equals_iff d e).mpr hd)
      have hne2 : ¬ e = d := fun hd => hne hd.symm
      rw [ElementInDeque, if_neg h]
      simp only [List.isEmpty_cons, Bool.false_eq_true, if_false]
      rw [ih d1]
      simp [hne2]

theorem ElementInDeque_of_ne_nil {deque : List Vector2} (hne : deque ≠ []) (e : Vector2) :
    ElementInDeque deque e = true ↔ e ∈ deque := by
  cases deque with
  | nil => exact absurd rfl hne
  | cons d rest => exact ElementInDeque_cons d rest e

theorem GenerateRandomPosition_some {draws occupied : List Vector2} (hne : occupied ≠ [])
    {p : Vector2} {rest : List Vector2}
    (h : Food.GenerateRandomPosition draws occupied = some (p, rest)) :
    p ∉ occupied ∧ ∃ rejected, draws = rejected ++ p :: rest ∧ ∀ q ∈ rejected, q ∈ occupied := by
  induction draws with
  | nil => simp [Food.GenerateRandomPosition] at h
  | cons r more ih =>
    rw [Food.GenerateRandomPosition] at h
    by_cases hr : ElementInDeque occupied r = true
    · simp only [hr, Bool.not_true, Bool.false_eq_true, if_false] at h
      obtain ⟨hp, rejected, hd, hall⟩ := ih h
      refine ⟨hp, r :: rejected, by simp [hd], ?_⟩
      intro q hq
      rcases List.mem_cons.mp hq with hq | hq
      · rw [hq]; exact (ElementInDeque_of_ne_nil hne r).mp hr
      · exact hall q hq
    · have hr2 : ElementInDeque occupied r = false := by simpa using hr
      simp only [hr2, Bool.not_false, if_true, Option.some.injEq, Prod.mk.injEq] at h
      obtain ⟨h1, h2⟩ := h
      subst h1; subst h2
      exact ⟨fun hm => hr ((ElementInDeque_of_ne_nil hne r).mpr hm), [], rfl, by simp⟩

theorem GenerateRandomPosition_isSome {draws occupied : List Vector2} (hne : occupied ≠ [])
    (h : ∃ p ∈ draws, p ∉ occupied) :
    ∃ p rest, Food.GenerateRandomPosition draws occupied = some (p, rest) := by
  induction draws with
  | nil => obtain ⟨p, hp, _⟩ := h; simp at hp
  | cons r more ih =>
    rw [Food.GenerateRandomPosition]
    by_cases hr : ElementInDeque occupied r = true
    · simp only [hr, Bool.not_true, Bool.false_eq_true, if_false]
      apply ih
      obtain ⟨p, hp, hfree⟩ := h
      rcases List.mem_cons.mp hp with hp | hp
      · subst hp; exact absurd ((ElementInDeque_of_ne_nil hne p).mp hr) hfree
      · exact ⟨p, hp, hfree⟩
    · have hr2 : ElementInDeque occupied r = false := by simpa using hr
      exact ⟨r, more, by simp [hr2]⟩

theorem HandleInput_body (s : Snake) (k : Keys) : (s.HandleInput k).body = s.body := by
  simp only [Snake.HandleInput]
  split_ifs <;> rfl

theorem HandleInput_prevDirection (s : Snake) (k : Keys) :
    (s.HandleInput k).prevDirection = s.prevDirection := by
  simp only [Snake.HandleInput]
  split_ifs <;> rfl

theorem HandleInput_addingSegment (s : Snake) (k : Keys) :
    (s.HandleInput k).addingSegment = s.addingSegment := by
  simp only [Snake.HandleInput]
  split_ifs <;> rfl

theorem HandleInput_none (s : Snake) : s.HandleInput Keys.none = s := by
  simp [Snake.HandleInput, Keys.none]

theorem IsTimeElapsed_of_le {interval currentTime lastUpdateTime : ℚ}
    (h : interval ≤ currentTime - lastUpdateTime) :
    IsTimeElapsed interval currentTime lastUpdateTime = (true, currentTime) := by
  simp [IsTimeElapsed, h]

theorem IsTimeElapsed_of_lt {interval currentTime lastUpdateTime : ℚ}
    (h : currentTime - lastUpdateTime < interval) :
    IsTimeElapsed interval currentTime lastUpdateTime = (false, lastUpdateTime) := by
  simp [IsTimeElapsed, not_le.mpr h]

theorem Move_of_two_le (s : Snake) (h : 2 ≤ s.body.length) :
    ∃ head, s.GetHeadPosition = some head ∧
      s.Move = some { s with body := Vector2Add head s.direction :: s.body.dropLast
                             prevDirection := s.direction } := by
  obtain ⟨body, dir, prev, adding⟩ := s
  match body, h with
  | a :: b :: rest, _ =>
    exact ⟨a, rfl, by simp [Snake.Move, List.dropLast]⟩

/-! ## C1 -/

/-- C1. For a non-empty occupied body and any sequence of draws: a coordinate
returned by `GenerateRandomPosition` is not in the body, and it is the first draw
that is not in the body (all draws before it are in the body); and the call does
return as soon as some draw is off the body. -/
theorem GenerateRandomPosition_avoids_occupied (occupied draws : List Vector2)
    (hne : occupied ≠ []) :
    (∀ p rest, Food.GenerateRandomPosition draws occupied = some (p, rest) →
      p ∉ occupied ∧
      ∃ rejected, draws = rejected ++ p :: rest ∧ ∀ q ∈ rejected, q ∈ occupied) ∧
    ((∃ p ∈ draws, p ∉ occupied) →
      ∃ p rest, Food.GenerateRandomPosition draws occupied = some (p, rest)) :=
  ⟨fun _ _ h => GenerateRandomPosition_some hne h, GenerateRandomPosition_isSome hne⟩

/-- C1 at the initial body with draws `(5,9)`, `(7,9)`, `(0,0)`: the result is
`(7,9)`, which is off the body. -/
theorem GenerateRandomPosition_avoids_occupied_witness :
    Snake.initial.body ≠ [] ∧
    Food.GenerateRandomPosition [⟨5, 9⟩, ⟨7, 9⟩, ⟨0, 0⟩] Snake.initial.body
      = some (⟨7, 9⟩, [⟨0, 0⟩]) ∧
    (⟨7, 9⟩ : Vector2) ∉ Snake.initial.body :=
  ⟨by decide, by decide,
    ((GenerateRandomPosition_avoids_occupied Snake.initial.body
      [⟨5, 9⟩, ⟨7, 9⟩, ⟨0, 0⟩] (by decide)).1 ⟨7, 9⟩ [⟨0, 0⟩] (by decide)).1⟩

/-! ## C2 -/

/-- C2. A snake with no pending growth and a body of length at least 2, updated
when the scheduler reports elapsed time and no key is pressed: the body becomes
old head plus direction followed by the old body without its last element, the
length is unchanged, `prevDirection` becomes `direction`, and the scheduler
stores the current time.  In particular body `[(6,9),(5,9),(4,9)]` with direction
`(1,0)` becomes `[(7,9),(6,9),(5,9)]`. -/
theorem Snake_Update_timer_move (s : Snake) (time last : ℚ)
    (hgrow : s.addingSegment = false) (hlen : 2 ≤ s.body.length)
    (helapsed : time - last ≥ updateTime) :
    ∃ head s1, s.GetHeadPosition = some head ∧
      s.Update Keys.none time last = some (s1, time) ∧
      s1.body = Vector2Add head s.direction :: s.body.dropLast ∧
      s1.body.length = s.body.length ∧
      s1.prevDirection = s.direction ∧
      s1.direction = s.direction ∧
      (s.body = [⟨6, 9⟩, ⟨5, 9⟩, ⟨4, 9⟩] → s.direction = ⟨1, 0⟩ →
        s1.body = [⟨7, 9⟩, ⟨6, 9⟩, ⟨5, 9⟩]) := by
  obtain ⟨head, hhead, hmove⟩ := Move_of_two_le s hlen
  refine ⟨head, ({ s with body := Vector2Add head s.direction :: s.body.dropLast,
                           prevDirection := s.direction } : Snake), hhead, ?_, rfl, ?_, rfl, rfl, ?_⟩
  · simp [Snake.Update, hgrow, IsTimeElapsed_of_le helapsed, hmove, HandleInput_none]
  · simp only [List.length_cons, List.length_dropLast]
    omega
  · intro hb hd
    rw [Snake.GetHeadPosition, hb] at hhead
    simp only [List.head?_cons, Option.some.injEq] at hhead
    show Vector2Add head s.direction :: s.body.dropLast = _
    rw [hb, hd, ← hhead]
    rfl

/-- C2 at the constructed snake, a tenth of a second after the last tick. -/
theorem Snake_Update_timer_move_witness :
    Snake.initial.addingSegment = false ∧ 2 ≤ Snake.initial.body.length ∧
    ((1 / 10 : ℚ) - 0 ≥ updateTime) ∧
    ∃ head s1, Snake.initial.GetHeadPosition = some head ∧
      Snake.initial.Update Keys.none (1 / 10) 0 = some (s1, 1 / 10) ∧
      s1.body = Vector2Add head Snake.initial.direction :: Snake.initial.body.dropLast ∧
      s1.body.length = Snake.initial.body.length ∧
      s1.prevDirection = Snake.initial.direction ∧
      s1.direction = Snake.initial.direction ∧
      (Snake.initial.body = [⟨6, 9⟩, ⟨5, 9⟩, ⟨4, 9⟩] → Snake.initial.direction = ⟨1, 0⟩ →
        s1.body = [⟨7, 9⟩, ⟨6, 9⟩, ⟨5, 9⟩]) :=
  ⟨rfl, by decide, by norm_num [updateTime],
    Snake_Update_timer_move Snake.initial (1 / 10) 0 rfl (by decide)
      (by norm_num [updateTime])⟩

/-! ## C3 -/

/-- C3. On a non-empty body, `AddSegment` followed by one `Update`, whatever the
keys and the clock: the body is the old body with the single element old tail
plus (old) direction appended, so the head and all old segments stay; the
scheduler's stored time is returned untouched and `prevDirection` is unchanged
(no timer move); the pending-growth flag is false afterwards. -/
theorem AddSegment_Update_appends (s : Snake) (k : Keys) (time last : ℚ)
    (hne : s.body ≠ []) :
    ∃ tail s1, s.GetTailPosition = some tail ∧
      s.AddSegment.Update k time last = some (s1, last) ∧
      s1.body = s.body ++ [Vector2Add tail s.direction] ∧
      s1.body.length = s.body.length + 1 ∧
      s1.GetHeadPosition = s.GetHeadPosition ∧
      s1.prevDirection = s.prevDirection ∧
      s1.addingSegment = false := by
  have htail : s.GetTailPosition = some (s.body.getLast hne) := by
    simp [Snake.GetTailPosition, List.getLast?_eq_getLast _ hne]
  have hupd : s.AddSegment.Update k time last =
      some (({ s with body := s.body ++ [Vector2Add (s.body.getLast hne) s.direction]
                      addingSegment := false } : Snake).HandleInput k, last) := by
    have h2 : s.AddSegment.GetTailPosition = some (s.body.getLast hne) := htail
    have h3 : s.AddSegment.addingSegment = true := rfl
    rw [Snake.Update, if_pos h3, h2]
    rfl
  refine ⟨_, _, htail, hupd, ?_, ?_, ?_, ?_, ?_⟩
  · rw [HandleInput_body]
  · rw [HandleInput_body]; simp
  · simp only [Snake.GetHeadPosition, HandleInput_body]
    generalize Vector2Add (s.body.getLast hne) s.direction = v
    cases hb : s.body with
    | nil => exact absurd hb hne
    | cons a rest => rfl
  · rw [HandleInput_prevDirection]
  · rw [HandleInput_addingSegment]

/-- C3 at the constructed snake with the up arrow pressed and the timer due:
the body grows to `[(6,9),(5,9),(4,9),(5,9)]` and the stored time stays `0`. -/
theorem AddSegment_Update_appends_witness :
    Snake.initial.body ≠ [] ∧
    ∃ s1, Snake.initial.AddSegment.Update { Keys.none with up := true } 5 0 = some (s1, 0) ∧
      s1.body = [⟨6, 9⟩, ⟨5, 9⟩, ⟨4, 9⟩, ⟨5, 9⟩] ∧ s1.addingSegment = false := by
  obtain ⟨tail, s1, ht, hu, hb, _, _, _, ha⟩ :=
    AddSegment_Update_appends Snake.initial { Keys.none with up := true } 5 0 (by decide)
  have htl : tail = ⟨4, 9⟩ := by
    simp [Snake.GetTailPosition, Snake.initial] at ht
    exact ht.symm
  refine ⟨by decide, s1, hu, ?_, ha⟩
  rw [hb, htl]
  rfl

/-! ## The collision checks on a state with a head -/

theorem GetHeadPosition_eq_some {s : Snake} {head : Vector2} (h : s.GetHeadPosition = some head) :
    ∃ rest, s.body = head :: rest := by
  cases hb : s.body with
  | nil => simp [Snake.GetHeadPosition, hb] at h
  | cons a rest =>
    simp only [Snake.GetHeadPosition, hb, List.head?_cons, Option.some.injEq] at h
    exact ⟨rest, by rw [h]⟩

theorem CheckCollisionWithEdges_eq {g : Game} {head : Vector2}
    (hhead : g.snake.GetHeadPosition = some head) :
    g.CheckCollisionWithEdges =
      some (if head.x = -1 ∨ head.x = 25 ∨ head.y = -1 ∨ head.y = 40 then g.GameOver else g) := by
  simp only [Game.CheckCollisionWithEdges, hhead, cellsWidth, cellsHeight, Bool.or_eq_true,
    beq_iff_eq]
  by_cases hx1 : head.x = 25 <;> by_cases hx2 : head.x = -1 <;>
    by_cases hy1 : head.y = 40 <;> by_cases hy2 : head.y = -1 <;>
    simp [hx1, hx2, hy1, hy2, Game.GameOver]

theorem CheckCollisionWithBody_eq {g : Game} {head : Vector2} {rest : List Vector2}
    (hbody : g.snake.body = head :: rest) :
    g.CheckCollisionWithBody = some (if ElementInDeque rest head then g.GameOver else g) := by
  simp only [Game.CheckCollisionWithBody, Snake.GetBody, hbody]
  split_ifs <;> rfl

/-- After the food check, the edge check and the body check both return, and
touch nothing but `isRunning`. -/
theorem edges_then_body {g : Game} {head : Vector2}
    (hhead : g.snake.GetHeadPosition = some head) :
    ∃ g2 g3, g.CheckCollisionWithEdges = some g2 ∧ g2.CheckCollisionWithBody = some g3 ∧
      (g3 = g ∨ g3 = g.GameOver) := by
  obtain ⟨rest, hbody⟩ := GetHeadPosition_eq_some hhead
  have hbody2 : (if head.x = -1 ∨ head.x = 25 ∨ head.y = -1 ∨ head.y = 40
      then g.GameOver else g).snake.body = head :: rest := by
    split_ifs <;> exact hbody
  refine ⟨_, _, CheckCollisionWithEdges_eq hhead, CheckCollisionWithBody_eq hbody2, ?_⟩
  split_ifs <;> simp [Game.GameOver]

theorem Update_of_running {g : Game} (f : Frame) (hrun : g.isRunning = true) :
    g.Update f = g.runStep f.keys f.time f.draws := by
  simp [Game.Update, Game.resetStep, hrun]

theorem Update_of_addingSegment (s : Snake) (k : Keys) (time last : ℚ)
    (hadd : s.addingSegment = true) (hne : s.body ≠ []) :
    ∃ tail, s.GetTailPosition = some tail ∧
      s.Update k time last =
        some (({ s with body := s.body ++ [Vector2Add tail s.direction]
                        addingSegment := false } : Snake).HandleInput k, last) := by
  have h2 : s.GetTailPosition = some (s.body.getLast hne) := by
    simp [Snake.GetTailPosition, List.getLast?_eq_getLast _ hne]
  exact ⟨_, h2, by rw [Snake.Update, if_pos hadd, h2]⟩

/-! ## C4 -/

/-- C4, as stated, fails.  With the food under the head of a running game and
no growth pending: when the timer is due the head moves off the food (score, body
length and food stay as they were); when it is not due the food is eaten but the
body length is still 3 after the call. -/
theorem Update_foodUnderHead_counterexample :
    Game.foodUnderHead.isRunning = true ∧
    Game.foodUnderHead.snake.GetHeadPosition = some Game.foodUnderHead.food ∧
    Game.foodUnderHead.Update Frame.timerDue =
      some { snake := { body := [⟨7, 9⟩, ⟨6, 9⟩, ⟨5, 9⟩], direction := ⟨1, 0⟩,
                        prevDirection := ⟨1, 0⟩, addingSegment := false },
             food := ⟨6, 9⟩, score := 0, isRunning := true, lastUpdateTime := 1 / 5 } ∧
    Game.foodUnderHead.Update Frame.timerNotDue =
      some { snake := { body := [⟨6, 9⟩, ⟨5, 9⟩, ⟨4, 9⟩], direction := ⟨1, 0⟩,
                        prevDirection := ⟨1, 0⟩, addingSegment := true },
             food := ⟨0, 0⟩, score := 1, isRunning := true, lastUpdateTime := 0 } := by
  refine ⟨rfl, rfl, ?_, ?_⟩
  · norm_num [Game.Update, Game.resetStep, Game.runStep, Snake.Update, Game.foodUnderHead,
      Frame.timerDue, Keys.none, Snake.initial, IsTimeElapsed, updateTime, Keys.anyPressed,
      Snake.Move, Snake.HandleInput, Game.CheckCollisionWithFood, Game.CheckCollisionWithEdges,
      Game.CheckCollisionWithBody, Snake.GetHeadPosition, Snake.GetBody, Snake.AddSegment,
      Food.GenerateRandomPosition, ElementInDeque, Vector2Equals, Vector2Add, Game.GameOver,
      cellsWidth, cellsHeight]
  · norm_num [Game.Update, Game.resetStep, Game.runStep, Snake.Update, Game.foodUnderHead,
      Frame.timerNotDue, Keys.none, Snake.initial, IsTimeElapsed, updateTime, Keys.anyPressed,
      Snake.Move, Snake.HandleInput, Game.CheckCollisionWithFood, Game.CheckCollisionWithEdges,
      Game.CheckCollisionWithBody, Snake.GetHeadPosition, Snake.GetBody, Snake.AddSegment,
      Food.GenerateRandomPosition, ElementInDeque, Vector2Equals, Vector2Add, Game.GameOver,
      cellsWidth, cellsHeight]

/-- C4, amended.  In a running game, if after this call's `Snake::Update` the head
lies on the food and some draw is off the body, then `Game::Update` returns with:
the score incremented (modulo `2 ^ 32`), the body as `Snake::Update` left it and
growth pending, and the food moved to a different coordinate that is not in that
body.  If the game is still running, the next `Update`, whatever its frame,
returns with the body one element longer. -/
theorem Update_food_collision (g : Game) (f : Frame) (snake : Snake) (t : ℚ)
    (hrun : g.isRunning = true)
    (hupd : g.snake.Update f.keys f.time g.lastUpdateTime = some (snake, t))
    (hhead : snake.GetHeadPosition = some g.food)
    (hfree : ∃ p ∈ f.draws, p ∉ snake.body) :
    ∃ g1, g.Update f = some g1 ∧
      g1.score = (g.score + 1) % 2 ^ 32 ∧
      g1.snake.body = snake.body ∧
      g1.snake.addingSegment = true ∧
      g1.food ∉ g1.snake.body ∧
      g1.food ≠ g.food ∧
      (g1.isRunning = true → ∀ f2 : Frame, ∃ g2, g1.Update f2 = some g2 ∧
        g2.snake.body.length = g1.snake.body.length + 1) := by
  obtain ⟨rest, hbody⟩ := GetHeadPosition_eq_some hhead
  have hne : snake.body ≠ [] := by rw [hbody]; exact List.cons_ne_nil _ _
  obtain ⟨p, left, hgen⟩ := GenerateRandomPosition_isSome hne hfree
  obtain ⟨hp, -⟩ := GenerateRandomPosition_some hne hgen
  -- the state after the food check
  let gf : Game := { snake := snake.AddSegment, food := p, score := (g.score + 1) % 2 ^ 32,
                     isRunning := g.isRunning, lastUpdateTime := t }
  have hfood : ({ g with snake := snake, lastUpdateTime := t } : Game).CheckCollisionWithFood
      f.draws = some (gf, left) := by
    have hgen2 : Food.GenerateRandomPosition f.draws snake.AddSegment.GetBody = some (p, left) :=
      hgen
    simp [Game.CheckCollisionWithFood, hhead, (Vector2Equals_iff _ _).mpr rfl, hgen2, gf]
  have hheadf : gf.snake.GetHeadPosition = some g.food := hhead
  obtain ⟨g2, g3, he, hb, hg3⟩ := edges_then_body hheadf
  have hres : g.Update f = some g3 := by
    rw [Update_of_running f hrun, Game.runStep, if_pos hrun, hupd]
    simp only [hfood, he, hb]
  have hfields : g3.snake = snake.AddSegment ∧ g3.food = p ∧
      g3.score = (g.score + 1) % 2 ^ 32 ∧ g3.lastUpdateTime = t := by
    rcases hg3 with h | h <;> rw [h] <;> exact ⟨rfl, rfl, rfl, rfl⟩
  obtain ⟨hsn, hfd, hsc, hlt⟩ := hfields
  have hb3 : g3.snake.body = snake.body := by rw [hsn]; rfl
  have hpne : p ≠ g.food := by
    intro hpe
    apply hp
    rw [hbody, hpe]
    exact List.mem_cons_self _ _
  refine ⟨g3, hres, hsc, hb3, by rw [hsn]; rfl, by rw [hfd, hb3]; exact hp, by rw [hfd]; exact hpne,
    ?_⟩
  intro hrun3 f2
  -- the next call: growth, then no food collision, then the two checks
  have hadd : g3.snake = snake.AddSegment := hsn
  obtain ⟨tail, -, hu3⟩ := Update_of_addingSegment g3.snake f2.keys f2.time g3.lastUpdateTime
    (by rw [hadd]; rfl) (by rw [hb3]; exact hne)
  generalize hs1 : Snake.HandleInput _ f2.keys = s1 at hu3
  have hs1b : s1.body = g3.snake.body ++ [Vector2Add tail g3.snake.direction] := by
    rw [← hs1, HandleInput_body]
  have hs1len : s1.body.length = snake.body.length + 1 := by
    rw [hs1b, hb3]; simp
  have hh1 : s1.GetHeadPosition = some g.food := by
    rw [Snake.GetHeadPosition, hs1b, hb3, hbody]; rfl
  have hnofood : ({ g3 with snake := s1, lastUpdateTime := g3.lastUpdateTime } :
      Game).CheckCollisionWithFood f2.draws =
      some ({ g3 with snake := s1, lastUpdateTime := g3.lastUpdateTime }, f2.draws) := by
    have hv : Vector2Equals g.food g3.food = false := by
      cases hv : Vector2Equals g.food g3.food with
      | false => rfl
      | true =>
        exact absurd ((Vector2Equals_iff _ _).mp hv).symm (by rw [hfd]; exact hpne)
    simp [Game.CheckCollisionWithFood, hh1, hv]
  have hh2 : ({ g3 with snake := s1, lastUpdateTime := g3.lastUpdateTime } :
      Game).snake.GetHeadPosition = some g.food := hh1
  obtain ⟨g4, g5, he2, hb2, hg5⟩ := edges_then_body hh2
  refine ⟨g5, ?_, ?_⟩
  · rw [Update_of_running f2 hrun3, Game.runStep, if_pos hrun3, hu3]
    simp only [hnofood, he2, hb2]
  · have : g5.snake = s1 := by rcases hg5 with h | h <;> simp [h, Game.GameOver]
    rw [this, hs1len, hb3]

/-- C4, amended, at the constructed snake with the food one cell ahead and the
timer due: the head moves onto the food, which is eaten. -/
theorem Update_food_collision_witness :
    Game.foodAhead.isRunning = true ∧
    Game.foodAhead.snake.Update Frame.timerDue.keys Frame.timerDue.time
      Game.foodAhead.lastUpdateTime = some (Snake.movedRight, 1 / 5) ∧
    Snake.movedRight.GetHeadPosition = some Game.foodAhead.food ∧
    (∃ p ∈ Frame.timerDue.draws, p ∉ Snake.movedRight.body) ∧
    ∃ g1, Game.foodAhead.Update Frame.timerDue = some g1 ∧
      g1.score = (Game.foodAhead.score + 1) % 2 ^ 32 ∧
      g1.snake.body = Snake.movedRight.body ∧
      g1.snake.addingSegment = true ∧
      g1.food ∉ g1.snake.body ∧
      g1.food ≠ Game.foodAhead.food ∧
      (g1.isRunning = true → ∀ f2 : Frame, ∃ g2, g1.Update f2 = some g2 ∧
        g2.snake.body.length = g1.snake.body.length + 1) := by
  have hupd : Game.foodAhead.snake.Update Frame.timerDue.keys Frame.timerDue.time
      Game.foodAhead.lastUpdateTime = some (Snake.movedRight, 1 / 5) := by
    norm_num [Snake.Update, Game.foodAhead, Frame.timerDue, Keys.none, Snake.initial,
      IsTimeElapsed, updateTime, Snake.Move, Snake.HandleInput, Vector2Add, Snake.movedRight]
  have hfree : ∃ p ∈ Frame.timerDue.draws, p ∉ Snake.movedRight.body :=
    ⟨⟨0, 0⟩, by simp [Frame.timerDue], by decide⟩
  exact ⟨rfl, hupd, rfl, hfree,
    Update_food_collision Game.foodAhead Frame.timerDue Snake.movedRight (1 / 5) rfl hupd rfl hfree⟩

/-! ## C5 -/

/-- C5. On a state whose snake has a head, `CheckCollisionWithEdges` returns; the
result is the state with `isRunning` set to false when the head has `x = -1`,
`x = 25`, `y = -1` or `y = 40`, and the unchanged state otherwise.  So a running
game is stopped by this check if and only if the head satisfies that
condition. -/
theorem CheckCollisionWithEdges_gameOver_iff (g : Game) (head : Vector2)
    (hhead : g.snake.GetHeadPosition = some head) :
    ∃ g1, g.CheckCollisionWithEdges = some g1 ∧
      ((head.x = -1 ∨ head.x = 25 ∨ head.y = -1 ∨ head.y = 40) → g1 = g.GameOver) ∧
      (¬ (head.x = -1 ∨ head.x = 25 ∨ head.y = -1 ∨ head.y = 40) → g1 = g) ∧
      (g.isRunning = true →
        (g1.isRunning = false ↔ (head.x = -1 ∨ head.x = 25 ∨ head.y = -1 ∨ head.y = 40))) := by
  refine ⟨_, CheckCollisionWithEdges_eq hhead, ?_, ?_, ?_⟩
  · intro h; rw [if_pos h]
  · intro h; rw [if_neg h]
  · intro hrun
    by_cases h : head.x = -1 ∨ head.x = 25 ∨ head.y = -1 ∨ head.y = 40
    · rw [if_pos h]; simp [Game.GameOver, h]
    · rw [if_neg h]; simp [hrun, h]

/-- C5 at a head on column 25: the check stops the game. -/
theorem CheckCollisionWithEdges_gameOver_iff_witness :
    Game.headPastRightBorder.snake.GetHeadPosition = some ⟨25, 9⟩ ∧
    Game.headPastRightBorder.CheckCollisionWithEdges = some Game.headPastRightBorder.GameOver := by
  obtain ⟨g1, h1, h2, -, -⟩ :=
    CheckCollisionWithEdges_gameOver_iff Game.headPastRightBorder ⟨25, 9⟩ rfl
  refine ⟨rfl, ?_⟩
  rw [h1, h2 (Or.inr (Or.inl rfl))]

/-! ## The reset step -/

theorem resetStep_of_gameOver {g : Game} {f : Frame} (hover : g.isRunning = false)
    (hkey : f.keys.anyPressed = true) {p : Vector2} {rest : List Vector2}
    (hgen : Food.GenerateRandomPosition f.draws [⟨6, 9⟩, ⟨5, 9⟩, ⟨4, 9⟩] = some (p, rest)) :
    g.resetStep f =
      some ({ g with snake := g.snake.Reset, food := p, score := 0, isRunning := true }, rest) := by
  have hgen2 : Food.GenerateRandomPosition f.draws g.snake.Reset.GetBody = some (p, rest) := hgen
  simp [Game.resetStep, hover, hkey, hgen2]

/-! ## C8 -/

/-- C8 evaluated on a run of the game.  The game constructed with first draw
`(7,9)`, then a frame with the timer due and the up arrow pressed (the food is
eaten, new food drawn at `(5,8)`), then an idle frame (the pending segment is
appended at `(5,8)`).  The state reached is running and has its food on the last
body segment. -/
theorem food_under_grown_segment :
    Game.initial [⟨7, 9⟩] = some Game.foodAhead ∧
    Game.foodAhead.Update Frame.upTimerDue = some Game.justEaten ∧
    Game.justEaten.Update Frame.idle = some Game.grownOntoFood ∧
    Game.Reachable Game.grownOntoFood ∧
    Game.grownOntoFood.isRunning = true ∧
    Game.grownOntoFood.food ∈ Game.grownOntoFood.snake.body := by
  have h0 : Game.initial [⟨7, 9⟩] = some Game.foodAhead := by decide
  have h1 : Game.foodAhead.Update Frame.upTimerDue = some Game.justEaten := by
    norm_num [Game.Update, Game.resetStep, Game.runStep, Snake.Update, Game.foodAhead,
      Game.justEaten, Frame.upTimerDue, Keys.onlyUp, Keys.none, Snake.initial,
      IsTimeElapsed, updateTime, Keys.anyPressed,
      Snake.Move, Snake.HandleInput, Game.CheckCollisionWithFood, Game.CheckCollisionWithEdges,
      Game.CheckCollisionWithBody, Snake.GetHeadPosition, Snake.GetBody, Snake.AddSegment,
      Food.GenerateRandomPosition, ElementInDeque, Vector2Equals, Vector2Add, Game.GameOver,
      cellsWidth, cellsHeight]
  have h2 : Game.justEaten.Update Frame.idle = some Game.grownOntoFood := by
    norm_num [Game.Update, Game.resetStep, Game.runStep, Snake.Update, Game.justEaten,
      Game.grownOntoFood, Frame.idle, Keys.none, Snake.GetTailPosition,
      IsTimeElapsed, updateTime, Keys.anyPressed,
      Snake.Move, Snake.HandleInput, Game.CheckCollisionWithFood, Game.CheckCollisionWithEdges,
      Game.CheckCollisionWithBody, Snake.GetHeadPosition, Snake.GetBody, Snake.AddSegment,
      Food.GenerateRandomPosition, ElementInDeque, Vector2Equals, Vector2Add, Game.GameOver,
      cellsWidth, cellsHeight]
  have r0 : Game.Reachable Game.foodAhead :=
    Game.Reachable.start [⟨7, 9⟩] (by decide) h0
  have r1 : Game.Reachable Game.justEaten :=
    Game.Reachable.update Frame.upTimerDue r0 (by decide) h1
  have r2 : Game.Reachable Game.grownOntoFood :=
    Game.Reachable.update Frame.idle r1 (by decide) h2
  exact ⟨h0, h1, h2, r2, rfl, by decide⟩

/-! ## C9 -/

/-- C9 evaluated on a snake moving down (`prevDirection = direction = (0,1)`).
With the up arrow pressed `HandleInput` sets the direction to `(0,-1)`, the exact
inverse of `prevDirection`; with the W key pressed instead, the guard applies and
the direction stays `(0,1)`. -/
theorem HandleInput_arrow_reverses :
    (Snake.movingDown.HandleInput Keys.onlyUp).direction = ⟨0, -1⟩ ∧
    (Snake.movingDown.HandleInput Keys.onlyUp).direction ≠ Snake.movingDown.direction ∧
    Vector2Add (Snake.movingDown.HandleInput Keys.onlyUp).direction
      (Snake.movingDown.HandleInput Keys.onlyUp).prevDirection = ⟨0, 0⟩ ∧
    (Snake.movingDown.HandleInput Keys.onlyW).direction = ⟨0, 1⟩ := by
  decide

/-- Without arrow keys the guard of `HandleInput` holds: a direction that was
changed is not the inverse of `prevDirection`. -/
theorem HandleInput_letters_guarded (s : Snake) (k : Keys)
    (hup : k.up = false) (hdown : k.down = false) (hright : k.right = false)
    (hleft : k.left = false) (hchanged : (s.HandleInput k).direction ≠ s.direction) :
    Vector2Add (s.HandleInput k).direction s.prevDirection ≠ ⟨0, 0⟩ := by
  obtain ⟨body, ⟨dx, dy⟩, ⟨px, py⟩, adding⟩ := s
  revert hchanged
  simp only [Snake.HandleInput, hup, hdown, hright, hleft, Bool.false_or, Vector2Add]
  split_ifs <;> simp_all <;> omega

/-! ## Unit directions and connected bodies -/

theorem UnitStep_neg {v : Vector2} (h : UnitStep v) : UnitStep ⟨-v.x, -v.y⟩ := by
  rcases h with h | h | h | h <;> subst h <;> decide

theorem HandleInput_direction_unit (s : Snake) (k : Keys) (h : UnitStep s.direction) :
    UnitStep (s.HandleInput k).direction := by
  simp only [Snake.HandleInput]
  split_ifs <;> first | exact h | simp [UnitStep]

theorem OneStepApart_add_left (a d : Vector2) (h : UnitStep d) :
    OneStepApart (Vector2Add a d) a := by
  have : (⟨(Vector2Add a d).x - a.x, (Vector2Add a d).y - a.y⟩ : Vector2) = d := by
    cases d; simp [Vector2Add]
  rw [OneStepApart, this]; exact h

theorem OneStepApart_add_right (a d : Vector2) (h : UnitStep d) :
    OneStepApart a (Vector2Add a d) := by
  have : (⟨a.x - (Vector2Add a d).x, a.y - (Vector2Add a d).y⟩ : Vector2) = ⟨-d.x, -d.y⟩ := by
    cases d; simp [Vector2Add]
  rw [OneStepApart, this]; exact UnitStep_neg h

theorem Chain_dropLast {R : Vector2 → Vector2 → Prop} :
    ∀ l : List Vector2, List.Chain' R l → List.Chain' R l.dropLast
  | [], _ => by simp
  | [_], _ => by simp
  | a :: b :: rest, h => by
    have hrec := Chain_dropLast (b :: rest) (List.Chain'.tail h)
    have hab : R a b := (List.chain'_cons.mp h).1
    cases rest with
    | nil => simp
    | cons c more =>
      simp only [List.dropLast_cons₂] at hrec ⊢
      exact List.chain'_cons.mpr ⟨hab, hrec⟩

theorem Chain_append_last {R : Vector2 → Vector2 → Prop} (l : List Vector2) (tail v : Vector2)
    (hl : List.Chain' R l) (htail : l.getLast? = some tail) (hR : R tail v) :
    List.Chain' R (l ++ [v]) := by
  refine List.Chain'.append hl (List.chain'_singleton v) ?_
  intro x hx y hy
  rw [htail] at hx
  simp only [List.head?_cons, Option.mem_def, Option.some.injEq] at hx hy
  rw [← hx, ← hy]; exact hR

/-! ## Length of the body -/

theorem Update_length_le {s s1 : Snake} {k : Keys} {time t t1 : ℚ}
    (hupd : s.Update k time t = some (s1, t1)) : s.body.length ≤ s1.body.length := by
  unfold Snake.Update at hupd
  split at hupd
  · split at hupd
    · exact absurd hupd (by simp)
    · simp only [Option.some.injEq, Prod.mk.injEq] at hupd
      rw [← hupd.1, HandleInput_body]
      simp
  · split at hupd
    · split at hupd
      · exact absurd hupd (by simp)
      · rename_i moved hmoved
        simp only [Option.some.injEq, Prod.mk.injEq] at hupd
        rw [← hupd.1, HandleInput_body]
        unfold Snake.Move at hmoved
        split at hmoved
        · exact absurd hmoved (by simp)
        · rename_i front rest hdrop
          simp only [Option.some.injEq] at hmoved
          rw [← hmoved]
          have hlen : s.body.dropLast.length = (front :: rest).length := by rw [hdrop]
          simp only [List.length_dropLast, List.length_cons] at hlen ⊢
          omega
    · simp only [Option.some.injEq, Prod.mk.injEq] at hupd
      rw [← hupd.1, HandleInput_body]

theorem Reachable_length {s : Snake} {t : ℚ} (h : Snake.Reachable s t) :
    3 ≤ s.body.length := by
  induction h with
  | start => decide
  | update k time _ hupd ih => exact le_trans ih (Update_length_le hupd)
  | addSegment _ ih => exact ih
  | reset _ ih => exact le_refl 3

theorem Update_isSome_of_two_le (s : Snake) (k : Keys) (time t : ℚ)
    (hlen : 2 ≤ s.body.length) : ∃ s1 t1, s.Update k time t = some (s1, t1) := by
  have hne : s.body ≠ [] := by
    intro hc; rw [hc] at hlen; simp at hlen
  cases hadd : s.addingSegment with
  | true =>
    obtain ⟨tail, -, hu⟩ := Update_of_addingSegment s k time t hadd hne
    exact ⟨_, _, hu⟩
  | false =>
    obtain ⟨head, -, hmove⟩ := Move_of_two_le s hlen
    by_cases hel : updateTime ≤ time - t
    · rw [Snake.Update, if_neg (by simp [hadd]), IsTimeElapsed_of_le hel, hmove]
      exact ⟨_, _, rfl⟩
    · rw [Snake.Update, if_neg (by simp [hadd]), IsTimeElapsed_of_lt (not_le.mp hel)]
      exact ⟨_, _, rfl⟩

/-! ## The steps of `Game::Update`, read backwards -/

theorem CheckCollisionWithFood_inv {g g1 : Game} {draws rest : List Vector2}
    (h : g.CheckCollisionWithFood draws = some (g1, rest)) :
    ∃ head, g.snake.GetHeadPosition = some head ∧
      ((head ≠ g.food ∧ g1 = g ∧ rest = draws) ∨
       (head = g.food ∧ ∃ p, Food.GenerateRandomPosition draws g.snake.body = some (p, rest) ∧
          g1 = { g with snake := g.snake.AddSegment, food := p,
                        score := (g.score + 1) % 2 ^ 32 })) := by
  unfold Game.CheckCollisionWithFood at h
  split at h
  · exact absurd h (by simp)
  · rename_i head hhead
    refine ⟨head, hhead, ?_⟩
    split at h
    · rename_i heq
      right
      refine ⟨(Vector2Equals_iff _ _).mp heq, ?_⟩
      simp only [Snake.GetBody, Snake.AddSegment] at h
      split at h
      · exact absurd h (by simp)
      · rename_i p left hgen
        simp only [Option.some.injEq, Prod.mk.injEq] at h
        obtain ⟨h1, h2⟩ := h
        subst h2
        exact ⟨p, hgen, h1.symm⟩
    · rename_i hne
      left
      simp only [Option.some.injEq, Prod.mk.injEq] at h
      exact ⟨fun hc => hne ((Vector2Equals_iff _ _).mpr hc), h.1.symm, h.2.symm⟩

theorem CheckCollisionWithEdges_inv {g g1 : Game} (h : g.CheckCollisionWithEdges = some g1) :
    g1 = g ∨ g1 = g.GameOver := by
  unfold Game.CheckCollisionWithEdges at h
  split at h
  · exact absurd h (by simp)
  · simp only [Option.some.injEq] at h
    rw [← h]
    split_ifs <;> simp [Game.GameOver]

theorem CheckCollisionWithBody_inv {g g1 : Game} (h : g.CheckCollisionWithBody = some g1) :
    g1 = g ∨ g1 = g.GameOver := by
  unfold Game.CheckCollisionWithBody at h
  split at h
  · exact absurd h (by simp)
  · split at h <;> simp only [Option.some.injEq] at h <;> rw [← h] <;> simp

theorem runStep_inv {g g3 : Game} {k : Keys} {time : ℚ} {draws : List Vector2}
    (hrun : g.isRunning = true) (h : g.runStep k time draws = some g3) :
    ∃ snake t g1 rest, g.snake.Update k time g.lastUpdateTime = some (snake, t) ∧
      ({ g with snake := snake, lastUpdateTime := t } : Game).CheckCollisionWithFood draws
        = some (g1, rest) ∧
      (g3 = g1 ∨ g3 = g1.GameOver) := by
  rw [Game.runStep, if_pos hrun] at h
  split at h
  · exact absurd h (by simp)
  · rename_i snake t hupd
    split at h
    · exact absurd h (by simp)
    · rename_i g1 rest hfood
      split at h
      · exact absurd h (by simp)
      · rename_i g2 hedges
        refine ⟨snake, t, g1, rest, hupd, hfood, ?_⟩
        rcases CheckCollisionWithEdges_inv hedges with h2 | h2 <;>
          rcases CheckCollisionWithBody_inv h with h3 | h3 <;>
          simp [h3, h2, Game.GameOver]

theorem Update_inv {g g3 : Game} {f : Frame} (h : g.Update f = some g3) :
    (g.isRunning = false ∧ f.keys.anyPressed = false ∧ g3 = g) ∨
    (g.isRunning = true ∧ g.runStep f.keys f.time f.draws = some g3) ∨
    (g.isRunning = false ∧ f.keys.anyPressed = true ∧
      ∃ p rest, Food.GenerateRandomPosition f.draws [⟨6, 9⟩, ⟨5, 9⟩, ⟨4, 9⟩] = some (p, rest) ∧
        ({ g with snake := g.snake.Reset, food := p, score := 0, isRunning := true } :
          Game).runStep f.keys f.time rest = some g3) := by
  cases hrun : g.isRunning with
  | true =>
    right; left
    rw [Update_of_running f hrun] at h
    exact ⟨rfl, h⟩
  | false =>
    cases hkey : f.keys.anyPressed with
    | false =>
      left
      simp [Game.Update, Game.resetStep, hrun, hkey, Game.runStep] at h
      exact ⟨rfl, rfl, h.symm⟩
    | true =>
      right; right
      refine ⟨rfl, rfl, ?_⟩
      cases hgen : Food.GenerateRandomPosition f.draws [⟨6, 9⟩, ⟨5, 9⟩, ⟨4, 9⟩] with
      | none =>
        have hgen2 : Food.GenerateRandomPosition f.draws g.snake.Reset.GetBody = none := hgen
        simp [Game.Update, Game.resetStep, hrun, hkey, hgen2] at h
      | some pr =>
        obtain ⟨p, rest⟩ := pr
        rw [Game.Update, resetStep_of_gameOver hrun hkey hgen] at h
        exact ⟨p, rest, rfl, h⟩

/-! ## Between two calls the food is never under the head -/

theorem runStep_head_ne_food {g g3 : Game} {k : Keys} {time : ℚ} {draws : List Vector2}
    (hrun : g.isRunning = true) (h : g.runStep k time draws = some g3) :
    g3.snake.GetHeadPosition ≠ some g3.food := by
  obtain ⟨snake, t, g1, rest, -, hfood, hg3⟩ := runStep_inv hrun h
  obtain ⟨head, hhead, hcase⟩ := CheckCollisionWithFood_inv hfood
  have key : g1.snake.GetHeadPosition ≠ some g1.food := by
    rcases hcase with ⟨hne, hg1, -⟩ | ⟨-, p, hgen, hg1⟩
    · rw [hg1, hhead]
      intro hc
      exact hne (Option.some.inj hc)
    · obtain ⟨tl, hbody⟩ := GetHeadPosition_eq_some hhead
      have hbody2 : snake.body = head :: tl := hbody
      have hne : snake.body ≠ [] := by rw [hbody2]; exact List.cons_ne_nil _ _
      have hgen2 : Food.GenerateRandomPosition draws snake.body = some (p, rest) := hgen
      have hp := (GenerateRandomPosition_some hne hgen2).1
      rw [hg1]
      show snake.GetHeadPosition ≠ some p
      have hhead2 : snake.GetHeadPosition = some head := hhead
      rw [hhead2]
      intro hc
      apply hp
      rw [hbody2, ← Option.some.inj hc]
      exact List.mem_cons_self _ _
  rcases hg3 with h3 | h3 <;> rw [h3] <;> exact key

theorem Reachable_head_ne_food {g : Game} (h : Game.Reachable g) :
    g.snake.GetHeadPosition ≠ some g.food := by
  induction h with
  | start draws _ hinit =>
    unfold Game.initial at hinit
    split at hinit
    · exact absurd hinit (by simp)
    · rename_i p rest hgen
      simp only [Option.some.injEq] at hinit
      have hp := (GenerateRandomPosition_some (by decide) hgen).1
      rw [← hinit]
      intro hc
      apply hp
      have : (⟨6, 9⟩ : Vector2) = p := Option.some.inj hc
      rw [← this]
      decide
  | update f _ _ hupd ih =>
    rcases Update_inv hupd with ⟨-, -, h1⟩ | ⟨hrun, h1⟩ | ⟨-, -, p, rest, -, h1⟩
    · rw [h1]; exact ih
    · exact runStep_head_ne_food hrun h1
    · exact runStep_head_ne_food rfl h1

/-! ## C11 -/

/-- C11. In every snake state reachable from the constructed snake by calls of
`Update` (any keys, any clock readings), `AddSegment` and `Reset`, the body has
at least 3 elements; so `GetHeadPosition`, `GetTailPosition` and `Move` are
defined there. -/
theorem Reachable_body_length_ge_three {s : Snake} {t : ℚ} (h : Snake.Reachable s t) :
    3 ≤ s.body.length ∧
    (∃ head, s.GetHeadPosition = some head) ∧
    (∃ tail, s.GetTailPosition = some tail) ∧
    (∃ moved, s.Move = some moved) := by
  have hlen := Reachable_length h
  have hne : s.body ≠ [] := by
    intro hc; rw [hc] at hlen; simp at hlen
  obtain ⟨head, hhead, hmove⟩ := Move_of_two_le s (le_trans (by decide) hlen)
  refine ⟨hlen, ⟨head, hhead⟩, ⟨s.body.getLast hne, ?_⟩, ⟨_, hmove⟩⟩
  simp [Snake.GetTailPosition, List.getLast?_eq_getLast _ hne]

/-- C11 at the snake reached by one timer move of the constructed snake. -/
theorem Reachable_body_length_ge_three_witness :
    Snake.Reachable Snake.movedRight (1 / 10) ∧
    3 ≤ Snake.movedRight.body.length ∧
    (∃ head, Snake.movedRight.GetHeadPosition = some head) ∧
    (∃ tail, Snake.movedRight.GetTailPosition = some tail) ∧
    (∃ moved, Snake.movedRight.Move = some moved) := by
  have hupd : Snake.initial.Update Keys.none (1 / 10) 0 = some (Snake.movedRight, 1 / 10) := by
    norm_num [Snake.Update, Keys.none, Snake.initial, IsTimeElapsed, updateTime, Snake.Move,
      Snake.HandleInput, Vector2Add, Snake.movedRight]
  have hr : Snake.Reachable Snake.movedRight (1 / 10) :=
    Snake.Reachable.update Keys.none (1 / 10) Snake.Reachable.start hupd
  exact ⟨hr, Reachable_body_length_ge_three hr⟩

/-! ## C12 -/

/-- C12. In a game that is over, a call of `Game::Update` in which none of the
nine keys is pressed returns the state it was given: snake (body, direction,
`prevDirection`, pending growth), food, score, `isRunning` and `lastUpdateTime`
are all unchanged, and `GetScore` returns the same value. -/
theorem Update_gameOver_no_key (g : Game) (f : Frame) (hover : g.isRunning = false)
    (hkeys : f.keys.anyPressed = false) :
    g.Update f = some g ∧ ∀ g1, g.Update f = some g1 → g1.GetScore = g.GetScore := by
  have h : g.Update f = some g := by
    simp [Game.Update, Game.resetStep, Game.runStep, hover, hkeys]
  refine ⟨h, ?_⟩
  intro g1 h1
  rw [h] at h1
  rw [← Option.some.inj h1]

/-- C12 at a game that ended at the right border, in an idle frame. -/
theorem Update_gameOver_no_key_witness :
    Game.endedAtRightBorder.isRunning = false ∧ Frame.idle.keys.anyPressed = false ∧
    Game.endedAtRightBorder.Update Frame.idle = some Game.endedAtRightBorder :=
  ⟨rfl, rfl, (Update_gameOver_no_key Game.endedAtRightBorder Frame.idle rfl rfl).1⟩

/-! ## C14 -/

theorem ticks_cons_of_le {interval last t : ℚ} (later : List ℚ) (h : interval ≤ t - last) :
    IsTimeElapsed.ticks interval last (t :: later) = t :: IsTimeElapsed.ticks interval t later := by
  rw [IsTimeElapsed.ticks, IsTimeElapsed_of_le h]

theorem ticks_cons_of_lt {interval last t : ℚ} (later : List ℚ) (h : t - last < interval) :
    IsTimeElapsed.ticks interval last (t :: later) = IsTimeElapsed.ticks interval last later := by
  rw [IsTimeElapsed.ticks, IsTimeElapsed_of_lt h]

theorem ticks_after_stored (interval : ℚ) :
    ∀ (times : List ℚ) (last : ℚ), (∀ x ∈ times, last ≤ x) → times.Pairwise (· ≤ ·) →
      ∀ b ∈ IsTimeElapsed.ticks interval last times, interval ≤ b - last
  | [], _, _, _ => by simp [IsTimeElapsed.ticks]
  | t :: later, last, hge, hsorted => by
    have hlater : later.Pairwise (· ≤ ·) := (List.pairwise_cons.mp hsorted).2
    have hlt : last ≤ t := hge t (List.mem_cons_self _ _)
    by_cases h : interval ≤ t - last
    · rw [ticks_cons_of_le later h]
      intro b hb
      rcases List.mem_cons.mp hb with hb | hb
      · rw [hb]; exact h
      · have := ticks_after_stored interval later t (List.pairwise_cons.mp hsorted).1 hlater b hb
        linarith
    · rw [ticks_cons_of_lt later (not_le.mp h)]
      exact ticks_after_stored interval later last
        (fun x hx => hge x (List.mem_cons_of_mem _ hx)) hlater

theorem ticks_pairwise (interval : ℚ) :
    ∀ (times : List ℚ) (last : ℚ), times.Pairwise (· ≤ ·) →
      (IsTimeElapsed.ticks interval last times).Pairwise (fun a b => interval ≤ b - a)
  | [], _, _ => by simp [IsTimeElapsed.ticks]
  | t :: later, last, hsorted => by
    have hlater : later.Pairwise (· ≤ ·) := (List.pairwise_cons.mp hsorted).2
    by_cases h : interval ≤ t - last
    · rw [ticks_cons_of_le later h]
      exact List.pairwise_cons.mpr
        ⟨ticks_after_stored interval later t (List.pairwise_cons.mp hsorted).1 hlater,
          ticks_pairwise interval later t hlater⟩
    · rw [ticks_cons_of_lt later (not_le.mp h)]
      exact ticks_pairwise interval later last hlater

/-- C14. For a stored time `last`, a current time `t` and an interval `d` (exact
rationals): `IsTimeElapsed` returns true and stores `t` when `t - last ≥ d`, and
returns false and keeps `last` otherwise, so it returns true exactly when
`t - last ≥ d`.  When successive calls read a non-decreasing clock, any two
readings at which the calls returned true differ by at least `d`. -/
theorem IsTimeElapsed_spec (d t last : ℚ) (times : List ℚ)
    (hclock : times.Pairwise (· ≤ ·)) :
    (t - last ≥ d → IsTimeElapsed d t last = (true, t)) ∧
    (¬ t - last ≥ d → IsTimeElapsed d t last = (false, last)) ∧
    ((IsTimeElapsed d t last).1 = true ↔ t - last ≥ d) ∧
    (IsTimeElapsed.ticks d last times).Pairwise (fun a b => b - a ≥ d) := by
  refine ⟨IsTimeElapsed_of_le, fun h => IsTimeElapsed_of_lt (not_le.mp h), ?_,
    ticks_pairwise d times last hclock⟩
  by_cases h : d ≤ t - last
  · simp [IsTimeElapsed_of_le h, h]
  · simp [IsTimeElapsed_of_lt (not_le.mp h), h]

/-- C14 with interval a tenth of a second, stored time `0` and the readings
`0.05`, `0.1`, `0.15`, `0.2`: the calls return true at `0.1` and at `0.2`. -/
theorem IsTimeElapsed_spec_witness :
    ([1 / 20, 1 / 10, 3 / 20, 1 / 5] : List ℚ).Pairwise (· ≤ ·) ∧
    IsTimeElapsed.ticks updateTime 0 [1 / 20, 1 / 10, 3 / 20, 1 / 5] = [1 / 10, 1 / 5] ∧
    (IsTimeElapsed.ticks updateTime 0 [1 / 20, 1 / 10, 3 / 20, 1 / 5]).Pairwise
      (fun a b => b - a ≥ updateTime) := by
  have hclock : ([1 / 20, 1 / 10, 3 / 20, 1 / 5] : List ℚ).Pairwise (· ≤ ·) := by
    norm_num
  refine ⟨hclock, ?_, (IsTimeElapsed_spec updateTime 0 0 _ hclock).2.2.2⟩
  norm_num [IsTimeElapsed.ticks, IsTimeElapsed, updateTime]

/-! ## An empty body -/

theorem GenerateRandomPosition_nil (draws : List Vector2) :
    Food.GenerateRandomPosition draws [] = none := by
  induction draws with
  | nil => rfl
  | cons r more ih => simp [Food.GenerateRandomPosition, ElementInDeque, ih]

/-! ## The cases of `Snake::Update` -/

theorem Snake_Update_inv {s s1 : Snake} {k : Keys} {time t t1 : ℚ}
    (hupd : s.Update k time t = some (s1, t1)) :
    s1.addingSegment = false ∧ (UnitStep s.direction → UnitStep s1.direction) ∧
    ((s.addingSegment = true ∧ ∃ tail, s.body.getLast? = some tail ∧
        s1.body = s.body ++ [Vector2Add tail s.direction]) ∨
     (s.addingSegment = false ∧ ∃ head rest, s.body.dropLast = head :: rest ∧
        s1.body = Vector2Add head s.direction :: head :: rest) ∨
     (s.addingSegment = false ∧ s1.body = s.body)) := by
  unfold Snake.Update at hupd
  split at hupd
  · rename_i hadd
    split at hupd
    · exact absurd hupd (by simp)
    · rename_i tail htail
      simp only [Option.some.injEq, Prod.mk.injEq] at hupd
      obtain ⟨hs, -⟩ := hupd
      subst hs
      refine ⟨by rw [HandleInput_addingSegment], fun hd => HandleInput_direction_unit _ _ hd, ?_⟩
      left
      exact ⟨hadd, tail, htail, by rw [HandleInput_body]⟩
  · rename_i hadd
    have hadd : s.addingSegment = false := by simpa using hadd
    split at hupd
    · split at hupd
      · exact absurd hupd (by simp)
      · rename_i moved hmoved
        simp only [Option.some.injEq, Prod.mk.injEq] at hupd
        obtain ⟨hs, -⟩ := hupd
        subst hs
        unfold Snake.Move at hmoved
        split at hmoved
        · exact absurd hmoved (by simp)
        · rename_i front rest hdrop
          simp only [Option.some.injEq] at hmoved
          subst hmoved
          refine ⟨by rw [HandleInput_addingSegment]; exact hadd,
            fun hd => HandleInput_direction_unit _ _ hd, ?_⟩
          right; left
          exact ⟨hadd, front, rest, hdrop, by rw [HandleInput_body]⟩
    · simp only [Option.some.injEq, Prod.mk.injEq] at hupd
      obtain ⟨hs, -⟩ := hupd
      subst hs
      refine ⟨by rw [HandleInput_addingSegment]; exact hadd,
        fun hd => HandleInput_direction_unit _ _ hd, ?_⟩
      right; right
      exact ⟨hadd, by rw [HandleInput_body]⟩

/-! ## At most 1000 distinct cells on the board -/

theorem length_le_of_nodup_inRange {l : List Vector2} (hnd : l.Nodup)
    (hr : ∀ p ∈ l, DrawInRange p) : l.length ≤ 1000 := by
  let board : Finset Vector2 :=
    (Finset.Icc (0 : ℤ) 24 ×ˢ Finset.Icc (0 : ℤ) 39).image (fun q => (⟨q.1, q.2⟩ : Vector2))
  have hsub : l.toFinset ⊆ board := by
    intro p hp
    have hp2 := hr p (List.mem_toFinset.mp hp)
    simp only [DrawInRange, cellsWidth, cellsHeight] at hp2
    refine Finset.mem_image.mpr ⟨(p.x, p.y), ?_, rfl⟩
    simp only [Finset.mem_product, Finset.mem_Icc]
    omega
  have hcard : board.card ≤ 1000 := by
    refine le_trans Finset.card_image_le ?_
    simp [Finset.card_product, Int.card_Icc]
  calc l.length = l.toFinset.card := (List.toFinset_card_of_nodup hnd).symm
    _ ≤ board.card := Finset.card_le_card hsub
    _ ≤ 1000 := hcard

theorem NearBoard_add {h d : Vector2} (hh : DrawInRange h) (hd : UnitStep d) :
    NearBoard (Vector2Add h d) := by
  simp only [DrawInRange, cellsWidth, cellsHeight] at hh
  rcases hd with hd | hd | hd | hd <;> subst hd <;>
    simp only [NearBoard, Vector2Add, cellsWidth, cellsHeight] <;> omega

theorem DrawInRange_of_NearBoard {p : Vector2} (hn : NearBoard p)
    (hedge : ¬ (p.x = -1 ∨ p.x = 25 ∨ p.y = -1 ∨ p.y = 40)) : DrawInRange p := by
  simp only [NearBoard, cellsWidth, cellsHeight] at hn
  simp only [DrawInRange, cellsWidth, cellsHeight]
  omega

theorem not_edge_of_DrawInRange {p : Vector2} (hp : DrawInRange p) :
    ¬ (p.x = -1 ∨ p.x = 25 ∨ p.y = -1 ∨ p.y = 40) := by
  simp only [DrawInRange, cellsWidth, cellsHeight] at hp
  omega

/-! ## From one call of `Game::Update` to the next -/

theorem dropLast_append_short (pre suf : List Vector2) (hsuf : suf.length ≤ 1) :
    List.Sublist (pre ++ suf).dropLast pre := by
  match suf, hsuf with
  | [], _ =>
    rw [List.append_nil]
    exact List.dropLast_sublist pre
  | [y], _ =>
    rw [List.dropLast_concat]

/-- The state between `snake.Update()` and the collision checks. -/
theorem Mid_of_Update {g : Game} (hs : g.Sound) (hrun : g.isRunning = true)
    {snake : Snake} {t : ℚ} {k : Keys} {time : ℚ}
    (hupd : g.snake.Update k time g.lastUpdateTime = some (snake, t)) :
    ({ g with snake := snake, lastUpdateTime := t } : Game).Mid := by
  obtain ⟨hfood, hlen, -, hshape⟩ := hs
  obtain ⟨hdir, pre, suf, hbody, hsuf, hnd, hrange, hfp⟩ := hshape hrun
  obtain ⟨hadd1, hdir1, hcase⟩ := Snake_Update_inv hupd
  have hblen : g.snake.body.length = pre.length + suf.length := by
    rw [hbody, List.length_append]
  rcases hcase with ⟨hadd, tail, -, hb1⟩ | ⟨hadd, head, rest, hdrop, hb1⟩ | ⟨hadd, hb1⟩
  · -- growth
    simp only [hadd, if_true] at hlen hsuf
    have hsuf0 : suf = [] := List.eq_nil_of_length_eq_zero (by omega)
    subst hsuf0
    match pre, hnd, hrange, hfp, hbody, hblen with
    | h :: pre1, hnd, hrange, hfp, hbody, hblen =>
      refine ⟨hfood, ?_, hadd1, hdir1 hdir, h, pre1, [Vector2Add tail g.snake.direction],
        ?_, by simp, (List.nodup_cons.mp hnd).2, fun p hp => hrange p (List.mem_cons_of_mem _ hp),
        fun hc => hfp (List.mem_cons_of_mem _ hc), ?_, ?_⟩
      · show snake.body.length = g.score + 3
        rw [hb1, List.length_append, List.length_singleton]
        omega
      · show snake.body = _
        rw [hb1, hbody]
        simp
      · have := hrange h (List.mem_cons_self _ _)
        simp only [DrawInRange, cellsWidth, cellsHeight] at this
        simp only [NearBoard, cellsWidth, cellsHeight]
        omega
      · intro _ hc
        exact hfp (by rw [hc]; exact List.mem_cons_self _ _)
    | [], _, _, _, _, hblen =>
      simp only [List.length_nil] at hblen
      omega
  · -- timer move
    simp only [hadd, Bool.false_eq_true, if_false, add_zero] at hlen hsuf
    have hsub : List.Sublist (head :: rest) pre := by
      rw [← hdrop, hbody]
      exact dropLast_append_short pre suf hsuf
    have hdl : g.snake.body.dropLast.length = rest.length + 1 := by rw [hdrop]; rfl
    rw [List.length_dropLast] at hdl
    refine ⟨hfood, ?_, hadd1, hdir1 hdir, Vector2Add head g.snake.direction, head :: rest, [],
      ?_, by simp, hnd.sublist hsub, fun p hp => hrange p (hsub.subset hp),
      fun hc => hfp (hsub.subset hc), ?_, fun hc => absurd rfl hc⟩
    · show snake.body.length = g.score + 3
      rw [hb1]
      simp only [List.length_cons]
      omega
    · show snake.body = _
      rw [hb1, List.append_nil]
    · exact NearBoard_add (hrange head (hsub.subset (List.mem_cons_self _ _))) hdir
  · -- neither
    simp only [hadd, Bool.false_eq_true, if_false, add_zero] at hlen hsuf
    match pre, hnd, hrange, hfp, hbody, hblen with
    | h :: pre1, hnd, hrange, hfp, hbody, hblen =>
      refine ⟨hfood, ?_, hadd1, hdir1 hdir, h, pre1, suf,
        ?_, hsuf, (List.nodup_cons.mp hnd).2, fun p hp => hrange p (List.mem_cons_of_mem _ hp),
        fun hc => hfp (List.mem_cons_of_mem _ hc), ?_, ?_⟩
      · show snake.body.length = g.score + 3
        rw [hb1]; exact hlen
      · show snake.body = _
        rw [hb1, hbody]
        rfl
      · have := hrange h (List.mem_cons_self _ _)
        simp only [DrawInRange, cellsWidth, cellsHeight] at this
        simp only [NearBoard, cellsWidth, cellsHeight]
        omega
      · intro _ hc
        exact hfp (by rw [hc]; exact List.mem_cons_self _ _)
    | [], _, _, _, _, hblen =>
      simp only [List.length_nil] at hblen
      omega

theorem runStep_cases {g g3 : Game} {k : Keys} {time : ℚ} {draws : List Vector2}
    (hrun : g.isRunning = true) (h : g.runStep k time draws = some g3) :
    ∃ snake t g1 rest head tl, g.snake.Update k time g.lastUpdateTime = some (snake, t) ∧
      ({ g with snake := snake, lastUpdateTime := t } : Game).CheckCollisionWithFood draws
        = some (g1, rest) ∧
      g1.snake.body = head :: tl ∧
      g3 = (if (head.x = -1 ∨ head.x = 25 ∨ head.y = -1 ∨ head.y = 40) ∨
              ElementInDeque tl head = true then g1.GameOver else g1) := by
  rw [Game.runStep, if_pos hrun] at h
  split at h
  · exact absurd h (by simp)
  · rename_i snake t hupd
    split at h
    · exact absurd h (by simp)
    · rename_i g1 rest hfood
      split at h
      · exact absurd h (by simp)
      · rename_i g2 hedges
        have hhead : ∃ head, g1.snake.GetHeadPosition = some head := by
          cases hh : g1.snake.GetHeadPosition with
          | none => simp [Game.CheckCollisionWithEdges, hh] at hedges
          | some head => exact ⟨head, rfl⟩
        obtain ⟨head, hhead⟩ := hhead
        obtain ⟨tl, hbody⟩ := GetHeadPosition_eq_some hhead
        rw [CheckCollisionWithEdges_eq hhead, Option.some.injEq] at hedges
        have hbody2 : g2.snake.body = head :: tl := by
          rw [← hedges]; split_ifs <;> exact hbody
        rw [CheckCollisionWithBody_eq hbody2, Option.some.injEq] at h
        refine ⟨snake, t, g1, rest, head, tl, hupd, hfood, hbody, ?_⟩
        rw [← h, ← hedges]
        by_cases he : head.x = -1 ∨ head.x = 25 ∨ head.y = -1 ∨ head.y = 40 <;>
          by_cases hb : ElementInDeque tl head = true <;>
          simp [he, hb, Game.GameOver]

/-- The state after the three collision checks. -/
theorem Sound_of_Mid {g g1 g3 : Game} {draws rest : List Vector2} {head : Vector2}
    {tl : List Vector2} (hm : g.Mid) (hrun : g.isRunning = true)
    (hdraws : ∀ p ∈ draws, DrawInRange p)
    (hfood : g.CheckCollisionWithFood draws = some (g1, rest))
    (hbody1 : g1.snake.body = head :: tl)
    (hg3 : g3 = (if (head.x = -1 ∨ head.x = 25 ∨ head.y = -1 ∨ head.y = 40) ∨
              ElementInDeque tl head = true then g1.GameOver else g1)) :
    g3.Sound := by
  obtain ⟨hfr, hlen, hadd, hdir, hd, pre, suf, hbody, hsuf, hnd, hrange, hfp, hnear, hsuffood⟩ := hm
  obtain ⟨head0, hhead0, hcase⟩ := CheckCollisionWithFood_inv hfood
  have hhd : head0 = hd := by
    rw [Snake.GetHeadPosition, hbody] at hhead0
    exact (Option.some.inj hhead0).symm
  subst hhd
  have htllen : (pre ++ suf).length = g.score + 2 := by
    have := hlen
    rw [hbody, List.length_cons] at this
    omega
  have htlne : pre ++ suf ≠ [] := by
    intro hc; rw [hc] at htllen; simp at htllen
  rcases hcase with ⟨hne, hg1, -⟩ | ⟨heq, p, hgen, hg1⟩
  · -- the food is not eaten
    have hg1s := hg1.symm
    subst hg1s
    rw [hbody] at hbody1
    obtain ⟨hh, ht⟩ := List.cons.inj hbody1
    subst hh; subst ht
    by_cases hc : (head0.x = -1 ∨ head0.x = 25 ∨ head0.y = -1 ∨ head0.y = 40) ∨
        ElementInDeque (pre ++ suf) head0 = true
    · rw [if_pos hc] at hg3
      subst hg3
      refine ⟨hfr, ?_, ?_, ?_⟩
      · show g.snake.body.length + (if g.snake.addingSegment = true then 1 else 0) = g.score + 3
        rw [hadd]; simpa using hlen
      · intro h; exact absurd (show g.snake.addingSegment = true from h) (by simp [hadd])
      · intro h; exact absurd (show false = true from h) (by simp)
    · rw [if_neg hc] at hg3
      subst hg3
      push_neg at hc
      obtain ⟨hedge, helem⟩ := hc
      have hnotin : head0 ∉ pre ++ suf := fun hin =>
        helem ((ElementInDeque_of_ne_nil htlne head0).mpr hin)
      have hedge2 : ¬ (head0.x = -1 ∨ head0.x = 25 ∨ head0.y = -1 ∨ head0.y = 40) := by
        push_neg; exact hedge
      have hinr : DrawInRange head0 := DrawInRange_of_NearBoard hnear hedge2
      refine ⟨hfr, ?_, ?_, ?_⟩
      · rw [hadd]; simpa using hlen
      · intro h; exact absurd h (by simp [hadd])
      · intro _
        refine ⟨hdir, head0 :: pre, suf, by rw [hbody]; rfl, by rw [hadd]; simpa using hsuf,
          List.nodup_cons.mpr ⟨fun hin => hnotin (List.mem_append_left _ hin), hnd⟩, ?_, ?_⟩
        · intro q hq
          rcases List.mem_cons.mp hq with hq | hq
          · rw [hq]; exact hinr
          · exact hrange q hq
        · intro hin
          rcases List.mem_cons.mp hin with hin | hin
          · exact hne hin.symm
          · exact hfp hin
  · -- the food is eaten
    have hsuf0 : suf = [] := by
      by_contra hc
      exact hsuffood hc heq
    subst hsuf0
    rw [List.append_nil] at hbody htllen htlne
    have hb1 : g1.snake.body = head0 :: pre := by rw [hg1]; exact hbody
    rw [hb1] at hbody1
    obtain ⟨hh, ht⟩ := List.cons.inj hbody1
    subst hh; subst ht
    have hgen2 : Food.GenerateRandomPosition draws (head0 :: pre) = some (p, rest) := by
      rw [← hbody]; exact hgen
    obtain ⟨hpfree, rejected, hsplit, -⟩ := GenerateRandomPosition_some (List.cons_ne_nil _ _) hgen2
    have hpr : DrawInRange p := hdraws p (by rw [hsplit]; simp)
    have hheadr : DrawInRange head0 := by rw [heq]; exact hfr
    have hheadpre : head0 ∉ pre := by rw [heq]; exact hfp
    have hc : ¬ ((head0.x = -1 ∨ head0.x = 25 ∨ head0.y = -1 ∨ head0.y = 40) ∨
        ElementInDeque pre head0 = true) := by
      rintro (he | hb)
      · exact not_edge_of_DrawInRange hheadr he
      · exact hheadpre ((ElementInDeque_of_ne_nil htlne head0).mp hb)
    rw [if_neg hc] at hg3
    have hnd1 : (head0 :: pre).Nodup := List.nodup_cons.mpr ⟨hheadpre, hnd⟩
    have hr1 : ∀ q ∈ head0 :: pre, DrawInRange q := by
      intro q hq
      rcases List.mem_cons.mp hq with hq | hq
      · rw [hq]; exact hheadr
      · exact hrange q hq
    have hbound := length_le_of_nodup_inRange hnd1 hr1
    rw [List.length_cons] at hbound
    have hscore : (g.score + 1) % 2 ^ 32 = g.score + 1 := by
      apply Nat.mod_eq_of_lt
      have : g.score + 1 ≤ 1000 := by omega
      exact lt_of_le_of_lt this (by norm_num)
    rw [hg3, hg1]
    refine ⟨hpr, ?_, fun _ => hrun, fun _ => ⟨hdir, head0 :: pre, [], ?_, ?_, hnd1, hr1, hpfree⟩⟩
    · show g.snake.body.length + (if true = true then 1 else 0) = (g.score + 1) % 2 ^ 32 + 3
      rw [hscore, hlen]; simp
    · show g.snake.body = _
      rw [hbody, List.append_nil]
    · show ([] : List Vector2).length + (if true = true then 1 else 0) ≤ 1
      simp

theorem runStep_sound {g g3 : Game} {k : Keys} {time : ℚ} {draws : List Vector2}
    (hs : g.Sound) (hrun : g.isRunning = true) (hdraws : ∀ p ∈ draws, DrawInRange p)
    (h : g.runStep k time draws = some g3) : g3.Sound := by
  obtain ⟨snake, t, g1, rest, head, tl, hupd, hfood, hbody, hg3⟩ := runStep_cases hrun h
  exact Sound_of_Mid (Mid_of_Update hs hrun hupd) hrun hdraws hfood hbody hg3

theorem initial_body_nodup : ([⟨6, 9⟩, ⟨5, 9⟩, ⟨4, 9⟩] : List Vector2).Nodup := by
  decide

theorem initial_body_inRange :
    ∀ p ∈ ([⟨6, 9⟩, ⟨5, 9⟩, ⟨4, 9⟩] : List Vector2), DrawInRange p := by
  decide

/-- A fresh three-segment snake with food placed off it. -/
theorem Sound_fresh {draws rest : List Vector2} {p : Vector2} (snake : Snake) (t : ℚ)
    (hdraws : ∀ q ∈ draws, DrawInRange q)
    (hgen : Food.GenerateRandomPosition draws [⟨6, 9⟩, ⟨5, 9⟩, ⟨4, 9⟩] = some (p, rest))
    (hbody : snake.body = [⟨6, 9⟩, ⟨5, 9⟩, ⟨4, 9⟩]) (hdir : snake.direction = ⟨1, 0⟩)
    (hadd : snake.addingSegment = false) :
    ({ snake := snake, food := p, score := 0, isRunning := true, lastUpdateTime := t } :
      Game).Sound ∧ ∀ q ∈ rest, DrawInRange q := by
  obtain ⟨hpfree, rejected, hsplit, -⟩ := GenerateRandomPosition_some (by decide) hgen
  refine ⟨⟨hdraws p (by rw [hsplit]; simp), ?_, fun _ => rfl, fun _ => ⟨?_, ?_⟩⟩, ?_⟩
  · show snake.body.length + (if snake.addingSegment = true then 1 else 0) = 0 + 3
    rw [hbody, hadd]; rfl
  · show UnitStep snake.direction
    rw [hdir]; exact Or.inl rfl
  · refine ⟨[⟨6, 9⟩, ⟨5, 9⟩, ⟨4, 9⟩], [], ?_, ?_, initial_body_nodup, initial_body_inRange,
      hpfree⟩
    · show snake.body = _
      rw [hbody]; rfl
    · show ([] : List Vector2).length + (if snake.addingSegment = true then 1 else 0) ≤ 1
      rw [hadd]; simp
  · intro q hq
    exact hdraws q (by rw [hsplit]; simp [hq])

theorem Update_sound {g g3 : Game} {f : Frame} (hs : g.Sound)
    (hdraws : ∀ p ∈ f.draws, DrawInRange p) (h : g.Update f = some g3) : g3.Sound := by
  rcases Update_inv h with ⟨-, -, h1⟩ | ⟨hrun, h1⟩ | ⟨hover, -, p, rest, hgen, h1⟩
  · rw [h1]; exact hs
  · exact runStep_sound hs hrun hdraws h1
  · have hadd : g.snake.addingSegment = false := by
      cases ha : g.snake.addingSegment with
      | false => rfl
      | true => rw [hs.2.2.1 ha] at hover; exact absurd hover (by simp)
    obtain ⟨hsr, hrest⟩ := Sound_fresh g.snake.Reset g.lastUpdateTime hdraws hgen rfl rfl hadd
    exact runStep_sound hsr rfl hrest h1

theorem Reachable_sound {g : Game} (h : Game.Reachable g) : g.Sound := by
  induction h with
  | start draws hdraws hinit =>
    unfold Game.initial at hinit
    split at hinit
    · exact absurd hinit (by simp)
    · rename_i p rest hgen
      simp only [Option.some.injEq] at hinit
      rw [← hinit]
      exact (Sound_fresh Snake.initial 0 hdraws hgen rfl rfl rfl).1
  | update f _ hdraws hupd ih => exact Update_sound ih hdraws hupd

/-! ## Reachable example states -/

theorem Reachable_foodAhead : Game.Reachable Game.foodAhead :=
  Game.Reachable.start [⟨7, 9⟩] (by decide) (by decide)

theorem Reachable_justEaten : Game.Reachable Game.justEaten := by
  refine Game.Reachable.update Frame.upTimerDue Reachable_foodAhead (by decide) ?_
  norm_num [Game.Update, Game.resetStep, Game.runStep, Snake.Update, Game.foodAhead,
    Game.justEaten, Frame.upTimerDue, Keys.onlyUp, Keys.none, Snake.initial,
    IsTimeElapsed, updateTime, Keys.anyPressed,
    Snake.Move, Snake.HandleInput, Game.CheckCollisionWithFood, Game.CheckCollisionWithEdges,
    Game.CheckCollisionWithBody, Snake.GetHeadPosition, Snake.GetBody, Snake.AddSegment,
    Food.GenerateRandomPosition, ElementInDeque, Vector2Equals, Vector2Add, Game.GameOver,
    cellsWidth, cellsHeight]

theorem Reachable_bitItself : Game.Reachable Game.bitItself := by
  have r0 : Game.Reachable Game.foodInCorner :=
    Game.Reachable.start [⟨0, 0⟩] (by decide) (by decide)
  have r1 : Game.Reachable Game.turnedBack := by
    refine Game.Reachable.update Frame.leftEarly r0 (by decide) ?_
    norm_num [Game.Update, Game.resetStep, Game.runStep, Snake.Update, Game.foodInCorner,
      Game.turnedBack, Frame.leftEarly, Keys.onlyLeft, Keys.none, Snake.initial,
      IsTimeElapsed, updateTime, Keys.anyPressed,
      Snake.Move, Snake.HandleInput, Game.CheckCollisionWithFood, Game.CheckCollisionWithEdges,
      Game.CheckCollisionWithBody, Snake.GetHeadPosition, Snake.GetBody, Snake.AddSegment,
      Food.GenerateRandomPosition, ElementInDeque, Vector2Equals, Vector2Add, Game.GameOver,
      cellsWidth, cellsHeight]
  refine Game.Reachable.update Frame.firstTick r1 (by decide) ?_
  norm_num [Game.Update, Game.resetStep, Game.runStep, Snake.Update, Game.bitItself,
    Game.turnedBack, Frame.firstTick, Keys.none,
    IsTimeElapsed, updateTime, Keys.anyPressed,
    Snake.Move, Snake.HandleInput, Game.CheckCollisionWithFood, Game.CheckCollisionWithEdges,
    Game.CheckCollisionWithBody, Snake.GetHeadPosition, Snake.GetBody, Snake.AddSegment,
    Food.GenerateRandomPosition, ElementInDeque, Vector2Equals, Vector2Add, Game.GameOver,
    cellsWidth, cellsHeight]

/-! ## C15 -/

theorem Sound_head_on_board {g : Game} (hs : g.Sound) (hrun : g.isRunning = true) :
    ∃ head, g.snake.GetHeadPosition = some head ∧
      0 ≤ head.x ∧ head.x < 25 ∧ 0 ≤ head.y ∧ head.y < 40 := by
  obtain ⟨-, hlen, -, hshape⟩ := hs
  obtain ⟨-, pre, suf, hbody, hsuf, -, hrange, -⟩ := hshape hrun
  rw [hbody, List.length_append] at hlen
  match pre, hrange, hbody, hlen with
  | head :: pre1, hrange, hbody, _ =>
    have hr := hrange head (List.mem_cons_self _ _)
    simp only [DrawInRange, cellsWidth, cellsHeight] at hr
    refine ⟨head, by rw [Snake.GetHeadPosition, hbody]; rfl, ?_⟩
    omega
  | [], _, _, hlen =>
    simp only [List.length_nil] at hlen
    omega

/-- C15. In every game state reachable from the constructed game by calls of
`Game::Update` (any keys, any clock readings, random draws in range), a running
game has its head inside the board, `0 ≤ x < 25` and `0 ≤ y < 40`; in
particular this holds after every `Update` that leaves the game running. -/
theorem Reachable_running_head_on_board {g : Game} (h : Game.Reachable g) :
    (g.isRunning = true →
      ∃ head, g.snake.GetHeadPosition = some head ∧
        0 ≤ head.x ∧ head.x < 25 ∧ 0 ≤ head.y ∧ head.y < 40) ∧
    (∀ (f : Frame) (g1 : Game), (∀ p ∈ f.draws, DrawInRange p) → g.Update f = some g1 →
      g1.isRunning = true →
      ∃ head, g1.snake.GetHeadPosition = some head ∧
        0 ≤ head.x ∧ head.x < 25 ∧ 0 ≤ head.y ∧ head.y < 40) :=
  ⟨Sound_head_on_board (Reachable_sound h),
    fun _ _ hdraws hupd => Sound_head_on_board (Update_sound (Reachable_sound h) hdraws hupd)⟩

/-- C15 at the game reached when the snake has just eaten at `(7,9)`. -/
theorem Reachable_running_head_on_board_witness :
    Game.Reachable Game.justEaten ∧ Game.justEaten.isRunning = true ∧
    ∃ head, Game.justEaten.snake.GetHeadPosition = some head ∧
      0 ≤ head.x ∧ head.x < 25 ∧ 0 ≤ head.y ∧ head.y < 40 :=
  ⟨Reachable_justEaten, rfl, (Reachable_running_head_on_board Reachable_justEaten).1 rfl⟩

/-! ## C16 -/

/-- C16. In every game state reachable from the constructed game by calls of
`Game::Update`, the body length, plus 1 if growth is pending, equals the score
plus 3. -/
theorem Reachable_length_eq_score_add_three {g : Game} (h : Game.Reachable g) :
    g.snake.body.length + (if g.snake.addingSegment = true then 1 else 0) = g.score + 3 :=
  (Reachable_sound h).2.1

/-- C16 at the game reached when the snake has just eaten: three segments, one
pending, score 1. -/
theorem Reachable_length_eq_score_add_three_witness :
    Game.Reachable Game.justEaten ∧
    Game.justEaten.snake.body.length = 3 ∧ Game.justEaten.snake.addingSegment = true ∧
    Game.justEaten.score = 1 ∧
    Game.justEaten.snake.body.length +
      (if Game.justEaten.snake.addingSegment = true then 1 else 0) = Game.justEaten.score + 3 :=
  ⟨Reachable_justEaten, rfl, rfl, rfl, Reachable_length_eq_score_add_three Reachable_justEaten⟩

/-! ## C17 -/

theorem resetStep_sound {g g0 : Game} {f : Frame} {rest : List Vector2} (hs : g.Sound)
    (hdraws : ∀ p ∈ f.draws, DrawInRange p) (h : g.resetStep f = some (g0, rest)) :
    g0.Sound ∧ (∀ p ∈ rest, DrawInRange p) ∧
      (g.isRunning = false → g0.snake.addingSegment = false) := by
  have hadd : g.isRunning = false → g.snake.addingSegment = false := by
    intro hover
    cases ha : g.snake.addingSegment with
    | false => rfl
    | true => rw [hs.2.2.1 ha] at hover; exact absurd hover (by simp)
  unfold Game.resetStep at h
  split at h
  · rename_i hcond
    have hover : g.isRunning = false := by
      simp only [Bool.and_eq_true, Bool.not_eq_true'] at hcond
      exact hcond.2
    simp only [Snake.GetBody, Snake.Reset] at h
    split at h
    · exact absurd h (by simp)
    · rename_i p left hgen
      simp only [Option.some.injEq, Prod.mk.injEq] at h
      obtain ⟨hg0, hrest⟩ := h
      subst hrest
      obtain ⟨hsr, hleft⟩ :=
        Sound_fresh g.snake.Reset g.lastUpdateTime hdraws hgen rfl rfl (hadd hover)
      rw [← hg0]
      exact ⟨hsr, hleft, fun _ => hadd hover⟩
  · simp only [Option.some.injEq, Prod.mk.injEq] at h
    obtain ⟨hg0, hrest⟩ := h
    rw [← hg0, ← hrest]
    exact ⟨hs, hdraws, hadd⟩

/-- A running step that ends with the game over has not eaten. -/
theorem runStep_gameOver_no_food {g g3 : Game} {k : Keys} {time : ℚ} {draws : List Vector2}
    (hs : g.Sound) (hrun : g.isRunning = true) (hdraws : ∀ p ∈ draws, DrawInRange p)
    (h : g.runStep k time draws = some g3) (hover : g3.isRunning = false) :
    g3.snake.addingSegment = false ∧ g3.food = g.food ∧ g3.score = g.score := by
  have hs3 := runStep_sound hs hrun hdraws h
  obtain ⟨snake, t, g1, rest, -, hfood, hg3⟩ := runStep_inv hrun h
  have hadd3 : g3.snake.addingSegment = false := by
    cases ha : g3.snake.addingSegment with
    | false => rfl
    | true => rw [hs3.2.2.1 ha] at hover; exact absurd hover (by simp)
  obtain ⟨head, -, hcase⟩ := CheckCollisionWithFood_inv hfood
  rcases hcase with ⟨-, hg1, -⟩ | ⟨-, p, -, hg1⟩
  · refine ⟨hadd3, ?_, ?_⟩ <;> rcases hg3 with h3 | h3 <;> rw [h3, hg1] <;> rfl
  · have : g3.snake.addingSegment = true := by
      rcases hg3 with h3 | h3 <;> rw [h3, hg1] <;> rfl
    rw [hadd3] at this
    exact absurd this (by simp)

/-- C17. In every game state reachable from the constructed game by calls of
`Game::Update` (random draws in range): if the game is over, no growth is
pending; a call of `Update` whose running step ends with the game over has had
no food collision in it (food and score are those the running step started
with, and no growth is pending); and the reset of a game that is over yields
a state with no growth pending. -/
theorem Reachable_gameOver_without_food_collision {g : Game} (h : Game.Reachable g) :
    (g.isRunning = false → g.snake.addingSegment = false) ∧
    (∀ (f : Frame) (g0 : Game) (rest : List Vector2) (g1 : Game),
      (∀ p ∈ f.draws, DrawInRange p) → g.resetStep f = some (g0, rest) →
      g0.runStep f.keys f.time rest = some g1 → g0.isRunning = true → g1.isRunning = false →
      g1.snake.addingSegment = false ∧ g1.food = g0.food ∧ g1.score = g0.score) ∧
    (∀ (f : Frame) (g0 : Game) (rest : List Vector2),
      (∀ p ∈ f.draws, DrawInRange p) → g.isRunning = false →
      g.resetStep f = some (g0, rest) → g0.snake.addingSegment = false) := by
  have hs := Reachable_sound h
  refine ⟨?_, ?_, ?_⟩
  · intro hover
    cases ha : g.snake.addingSegment with
    | false => rfl
    | true => rw [hs.2.2.1 ha] at hover; exact absurd hover (by simp)
  · intro f g0 rest g1 hdraws hreset hstep hrun0 hover1
    obtain ⟨hs0, hrest, -⟩ := resetStep_sound hs hdraws hreset
    exact runStep_gameOver_no_food hs0 hrun0 hrest hstep hover1
  · intro f g0 rest hdraws hover hreset
    exact (resetStep_sound hs hdraws hreset).2.2 hover

/-- C17 at the game in which the snake, turned back by the left arrow, has run
into its own neck: the game is over and no growth is pending. -/
theorem Reachable_gameOver_without_food_collision_witness :
    Game.Reachable Game.bitItself ∧ Game.bitItself.isRunning = false ∧
    Game.bitItself.snake.addingSegment = false :=
  ⟨Reachable_bitItself, rfl,
    (Reachable_gameOver_without_food_collision Reachable_bitItself).1 rfl⟩

/-! ## C13 -/

/-- C13, as stated, fails.  The constructed snake with growth requested still
has growth pending after `Reset`. -/
theorem Reset_keeps_addingSegment_counterexample :
    Snake.initial.AddSegment.Reset.body = [⟨6, 9⟩, ⟨5, 9⟩, ⟨4, 9⟩] ∧
    Snake.initial.AddSegment.Reset.direction = ⟨1, 0⟩ ∧
    Snake.initial.AddSegment.Reset.addingSegment = true := by
  decide

/-- C13, amended.  For every snake state, `Reset` yields body
`[(6,9),(5,9),(4,9)]` and direction `(1,0)`, and leaves the pending-growth flag
(and `prevDirection`) as they were.  In every reachable state of the game that
is over, which is where the game calls `Reset`, the flag is false before and so
after the call. -/
theorem Reset_body_direction (s : Snake) :
    s.Reset.body = [⟨6, 9⟩, ⟨5, 9⟩, ⟨4, 9⟩] ∧
    s.Reset.direction = ⟨1, 0⟩ ∧
    s.Reset.addingSegment = s.addingSegment ∧
    s.Reset.prevDirection = s.prevDirection ∧
    (∀ g : Game, Game.Reachable g → g.isRunning = false →
      g.snake.Reset.addingSegment = false) := by
  refine ⟨rfl, rfl, rfl, rfl, ?_⟩
  intro g hg hover
  show g.snake.addingSegment = false
  cases ha : g.snake.addingSegment with
  | false => rfl
  | true => rw [(Reachable_sound hg).2.2.1 ha] at hover; exact absurd hover (by simp)

/-- C13, amended, at the snake that has run into its own neck. -/
theorem Reset_body_direction_witness :
    Game.Reachable Game.bitItself ∧ Game.bitItself.isRunning = false ∧
    Game.bitItself.snake.Reset =
      { body := [⟨6, 9⟩, ⟨5, 9⟩, ⟨4, 9⟩], direction := ⟨1, 0⟩, prevDirection := ⟨-1, 0⟩,
        addingSegment := false } ∧
    Game.bitItself.snake.Reset.addingSegment = false :=
  ⟨Reachable_bitItself, rfl, by decide,
    (Reset_body_direction Game.bitItself.snake).2.2.2.2 Game.bitItself Reachable_bitItself rfl⟩

/-! ## A running step without a game over -/

theorem runStep_clean {g : Game} {k : Keys} {time : ℚ} {draws : List Vector2} {s1 : Snake}
    {t1 : ℚ} {head : Vector2} {tl : List Vector2}
    (hrun : g.isRunning = true)
    (hupd : g.snake.Update k time g.lastUpdateTime = some (s1, t1))
    (hbody : s1.body = head :: tl)
    (hedge : ¬ (head.x = -1 ∨ head.x = 25 ∨ head.y = -1 ∨ head.y = 40))
    (helem : ElementInDeque tl head = false)
    (hfoodoff : g.food ∉ tl)
    (hdraw : head = g.food → ∃ q ∈ draws, q ∉ s1.body) :
    ∃ g1, g.runStep k time draws = some g1 ∧ g1.isRunning = true ∧
      g1.food ∉ g1.snake.body ∧ g1.snake.body = s1.body ∧
      g1.snake.direction = s1.direction ∧ g1.lastUpdateTime = t1 ∧
      ((head ≠ g.food ∧ g1.score = g.score ∧ g1.food = g.food ∧ g1.snake = s1) ∨
       (head = g.food ∧ g1.score = (g.score + 1) % 2 ^ 32 ∧ g1.snake = s1.AddSegment)) := by
  have hhead : s1.GetHeadPosition = some head := by rw [Snake.GetHeadPosition, hbody]; rfl
  have hne : s1.body ≠ [] := by rw [hbody]; exact List.cons_ne_nil _ _
  have hfin : ∀ g1 : Game, g1.snake.body = head :: tl →
      ∃ g2, g1.CheckCollisionWithEdges = some g2 ∧ g2.CheckCollisionWithBody = some g1 := by
    intro g1 hb
    have hh : g1.snake.GetHeadPosition = some head := by rw [Snake.GetHeadPosition, hb]; rfl
    refine ⟨g1, ?_, ?_⟩
    · rw [CheckCollisionWithEdges_eq hh, if_neg hedge]
    · rw [CheckCollisionWithBody_eq hb, helem]; rfl
  by_cases heq : head = g.food
  · obtain ⟨p, left, hgen⟩ := GenerateRandomPosition_isSome hne (hdraw heq)
    obtain ⟨hp, -⟩ := GenerateRandomPosition_some hne hgen
    have hfood : ({ g with snake := s1, lastUpdateTime := t1 } : Game).CheckCollisionWithFood
        draws = some ({ snake := s1.AddSegment, food := p, score := (g.score + 1) % 2 ^ 32,
                        isRunning := g.isRunning, lastUpdateTime := t1 }, left) := by
      have hgen2 : Food.GenerateRandomPosition draws s1.AddSegment.GetBody = some (p, left) :=
        hgen
      have hv : Vector2Equals head g.food = true := (Vector2Equals_iff _ _).mpr heq
      simp [Game.CheckCollisionWithFood, hhead, hv, hgen2]
    obtain ⟨g2, he, hb⟩ :=
      hfin ⟨s1.AddSegment, p, (g.score + 1) % 2 ^ 32, g.isRunning, t1⟩ hbody
    refine ⟨⟨s1.AddSegment, p, (g.score + 1) % 2 ^ 32, g.isRunning, t1⟩, ?_, hrun, hp, rfl, rfl,
      rfl, Or.inr ⟨heq, rfl, rfl⟩⟩
    rw [Game.runStep, if_pos hrun, hupd]
    simp only [hfood, he, hb]
  · have hfood : ({ g with snake := s1, lastUpdateTime := t1 } : Game).CheckCollisionWithFood
        draws = some ({ g with snake := s1, lastUpdateTime := t1 }, draws) := by
      have hv : Vector2Equals head g.food = false := by
        cases hv : Vector2Equals head g.food with
        | false => rfl
        | true => exact absurd ((Vector2Equals_iff _ _).mp hv) heq
      simp [Game.CheckCollisionWithFood, hhead, hv]
    obtain ⟨g2, he, hb⟩ := hfin { g with snake := s1, lastUpdateTime := t1 } hbody
    refine ⟨⟨s1, g.food, g.score, g.isRunning, t1⟩, ?_, hrun, ?_, rfl, rfl, rfl,
      Or.inl ⟨heq, rfl, rfl, rfl⟩⟩
    · rw [Game.runStep, if_pos hrun, hupd]
      simp only [hfood, he, hb]
    · show g.food ∉ s1.body
      rw [hbody]
      intro hc
      rcases List.mem_cons.mp hc with hc | hc
      · exact heq hc.symm
      · exact hfoodoff hc

theorem HandleInput_keeps_right (s : Snake) (k : Keys) (hdir : s.direction = ⟨1, 0⟩)
    (hup : k.up = false) (hdown : k.down = false) (hleft : k.left = false)
    (hw : k.w = false) (hs : k.s = false) (ha : k.a = false) :
    (s.HandleInput k).direction = ⟨1, 0⟩ := by
  simp only [Snake.HandleInput, hup, hdown, hleft, hw, hs, ha, Bool.false_and, Bool.or_false,
    Bool.false_eq_true, if_false]
  split_ifs <;> first | rfl | exact hdir

/-! ## C7 -/

theorem Reset_Update (s : Snake) (k : Keys) (time last : ℚ) :
    ∃ s1 t1, s.Reset.Update k time last = some (s1, t1) ∧ s1.addingSegment = false ∧
      s1.body =
        (if s.addingSegment = true then [⟨6, 9⟩, ⟨5, 9⟩, ⟨4, 9⟩, ⟨5, 9⟩]
         else if time - last ≥ updateTime then [⟨7, 9⟩, ⟨6, 9⟩, ⟨5, 9⟩]
         else [⟨6, 9⟩, ⟨5, 9⟩, ⟨4, 9⟩]) ∧
      (k.up = false → k.down = false → k.left = false → k.w = false → k.s = false →
        k.a = false → s1.direction = ⟨1, 0⟩) := by
  cases hadd : s.addingSegment with
  | true =>
    have hadd2 : s.Reset.addingSegment = true := hadd
    have hupd : s.Reset.Update k time last =
        some (({ s.Reset with body := [⟨6, 9⟩, ⟨5, 9⟩, ⟨4, 9⟩, ⟨5, 9⟩],
                              addingSegment := false } : Snake).HandleInput k, last) := by
      rw [Snake.Update, if_pos hadd2]
      rfl
    refine ⟨_, _, hupd, ?_, ?_, ?_⟩
    · rw [HandleInput_addingSegment]
    · rw [HandleInput_body]; rfl
    · intro hup hdown hleft hw hs ha
      exact HandleInput_keeps_right _ k rfl hup hdown hleft hw hs ha
  | false =>
    have hadd2 : ¬ s.Reset.addingSegment = true := by
      show ¬ s.addingSegment = true
      rw [hadd]; simp
    by_cases hel : updateTime ≤ time - last
    · have hupd : s.Reset.Update k time last =
          some (({ s.Reset with body := [⟨7, 9⟩, ⟨6, 9⟩, ⟨5, 9⟩],
                                prevDirection := ⟨1, 0⟩ } : Snake).HandleInput k, time) := by
        rw [Snake.Update, if_neg hadd2, IsTimeElapsed_of_le hel]
        rfl
      refine ⟨_, _, hupd, ?_, ?_, ?_⟩
      · rw [HandleInput_addingSegment]; exact hadd
      · rw [HandleInput_body]; simp [hel]
      · intro hup hdown hleft hw hs ha
        exact HandleInput_keeps_right _ k rfl hup hdown hleft hw hs ha
    · have hupd : s.Reset.Update k time last = some (s.Reset.HandleInput k, last) := by
        rw [Snake.Update, if_neg hadd2, IsTimeElapsed_of_lt (not_le.mp hel)]
      refine ⟨_, _, hupd, ?_, ?_, ?_⟩
      · rw [HandleInput_addingSegment]; exact hadd
      · rw [HandleInput_body]; simp [hel]; rfl
      · intro hup hdown hleft hw hs ha
        exact HandleInput_keeps_right _ k rfl hup hdown hleft hw hs ha

/-- C7, as stated, fails.  A game that ended at the right border, with the up
arrow pressed a second later and the random generator producing `(7,9)` and then
`(4,9)`: the call that resets also moves the snake onto the food just placed at
`(7,9)` and turns it upwards.  After the call the game is running, but the body
is `[(7,9),(6,9),(5,9)]`, the direction `(0,-1)`, the score `1`, and the food
`(4,9)` lies on the reset body. -/
theorem Update_reset_counterexample :
    Game.endedAtRightBorder.isRunning = false ∧
    Frame.upAfterOneSecond.keys.anyPressed = true ∧
    Game.endedAtRightBorder.Update Frame.upAfterOneSecond =
      some { snake := { body := [⟨7, 9⟩, ⟨6, 9⟩, ⟨5, 9⟩], direction := ⟨0, -1⟩,
                        prevDirection := ⟨1, 0⟩, addingSegment := true },
             food := ⟨4, 9⟩, score := 1, isRunning := true, lastUpdateTime := 3 } ∧
    (⟨4, 9⟩ : Vector2) ∈ ([⟨6, 9⟩, ⟨5, 9⟩, ⟨4, 9⟩] : List Vector2) := by
  refine ⟨rfl, rfl, ?_, by decide⟩
  norm_num [Game.Update, Game.resetStep, Game.runStep, Snake.Update, Game.endedAtRightBorder,
    Game.headPastRightBorder, Frame.upAfterOneSecond, Keys.onlyUp, Keys.none, Snake.Reset,
    IsTimeElapsed, updateTime, Keys.anyPressed,
    Snake.Move, Snake.HandleInput, Game.CheckCollisionWithFood, Game.CheckCollisionWithEdges,
    Game.CheckCollisionWithBody, Snake.GetHeadPosition, Snake.GetBody, Snake.AddSegment,
    Food.GenerateRandomPosition, ElementInDeque, Vector2Equals, Vector2Add, Game.GameOver,
    cellsWidth, cellsHeight]

/-- C7, amended.  In a game that is over, with one of the nine keys pressed and
some draw off the cells `(4,9)` to `(7,9)`, `Game::Update` returns, and after the
call: the game is running; the food is not on the body; the body is
`[(6,9),(5,9),(4,9),(5,9)]` if growth was pending, else `[(7,9),(6,9),(5,9)]` if
the timer was due, else `[(6,9),(5,9),(4,9)]`; the score is `0` and no growth is
pending, or the score is `1`, growth is pending and the body is
`[(7,9),(6,9),(5,9)]` (the moved head has eaten the food just placed at `(7,9)`);
the direction is `(1,0)` when none of up, down, left, W, S, A is pressed.
So with no growth pending, the timer not due and none of these keys pressed, the
state after the call has body `[(6,9),(5,9),(4,9)]`, direction `(1,0)`, score `0`,
is running, and has its food off that body. -/
theorem Update_reset (g : Game) (f : Frame) (hover : g.isRunning = false)
    (hkey : f.keys.anyPressed = true)
    (hfree : ∃ p ∈ f.draws, p ∉ ([⟨7, 9⟩, ⟨6, 9⟩, ⟨5, 9⟩, ⟨4, 9⟩] : List Vector2)) :
    ∃ g1, g.Update f = some g1 ∧
      g1.isRunning = true ∧
      g1.food ∉ g1.snake.body ∧
      g1.snake.body =
        (if g.snake.addingSegment = true then [⟨6, 9⟩, ⟨5, 9⟩, ⟨4, 9⟩, ⟨5, 9⟩]
         else if f.time - g.lastUpdateTime ≥ updateTime then [⟨7, 9⟩, ⟨6, 9⟩, ⟨5, 9⟩]
         else [⟨6, 9⟩, ⟨5, 9⟩, ⟨4, 9⟩]) ∧
      ((g1.score = 0 ∧ g1.snake.addingSegment = false) ∨
       (g1.score = 1 ∧ g1.snake.addingSegment = true ∧
          g1.snake.body = [⟨7, 9⟩, ⟨6, 9⟩, ⟨5, 9⟩])) ∧
      (f.keys.up = false → f.keys.down = false → f.keys.left = false → f.keys.w = false →
        f.keys.s = false → f.keys.a = false → g1.snake.direction = ⟨1, 0⟩) ∧
      (g.snake.addingSegment = false → f.time - g.lastUpdateTime < updateTime →
        f.keys.up = false → f.keys.down = false → f.keys.left = false → f.keys.w = false →
        f.keys.s = false → f.keys.a = false →
        g1.snake.body = [⟨6, 9⟩, ⟨5, 9⟩, ⟨4, 9⟩] ∧ g1.snake.direction = ⟨1, 0⟩ ∧
        g1.score = 0 ∧ g1.isRunning = true ∧
        g1.food ∉ ([⟨6, 9⟩, ⟨5, 9⟩, ⟨4, 9⟩] : List Vector2)) := by
  obtain ⟨p, hpmem, hpfree⟩ := hfree
  have hpinit : p ∉ ([⟨6, 9⟩, ⟨5, 9⟩, ⟨4, 9⟩] : List Vector2) :=
    fun h => hpfree (List.mem_cons_of_mem _ h)
  obtain ⟨p1, rest, hgen⟩ := GenerateRandomPosition_isSome (by decide) ⟨p, hpmem, hpinit⟩
  obtain ⟨hp1, rejected, hsplit, hrej⟩ := GenerateRandomPosition_some (by decide) hgen
  have hprest : p1 = ⟨7, 9⟩ → p ∈ rest := by
    intro h7
    rw [hsplit] at hpmem
    rcases List.mem_append.mp hpmem with hm | hm
    · exact absurd (hrej p hm) hpinit
    · rcases List.mem_cons.mp hm with hm | hm
      · exact absurd (by rw [hm, h7]; exact List.mem_cons_self _ _) hpfree
      · exact hm
  have hupdate : g.Update f =
      (⟨g.snake.Reset, p1, 0, true, g.lastUpdateTime⟩ : Game).runStep f.keys f.time rest := by
    rw [Game.Update, resetStep_of_gameOver hover hkey hgen]
  obtain ⟨s1, t1, hupd, hadd1, hbody1, hdir1⟩ :=
    Reset_Update g.snake f.keys f.time g.lastUpdateTime
  have hp1x : p1 ≠ ⟨6, 9⟩ ∧ p1 ≠ ⟨5, 9⟩ ∧ p1 ≠ ⟨4, 9⟩ := by
    simpa using hp1
  -- the running step from the reset state, for the three shapes of the body
  have hstep : ∃ g1, (⟨g.snake.Reset, p1, 0, true, g.lastUpdateTime⟩ : Game).runStep
        f.keys f.time rest = some g1 ∧ g1.isRunning = true ∧ g1.food ∉ g1.snake.body ∧
        g1.snake.body = s1.body ∧ g1.snake.direction = s1.direction ∧
        ((g1.score = 0 ∧ g1.snake.addingSegment = false) ∨
         (g1.score = 1 ∧ g1.snake.addingSegment = true ∧
            s1.body = [⟨7, 9⟩, ⟨6, 9⟩, ⟨5, 9⟩])) := by
    have hfinish : ∀ (head : Vector2) (tl : List Vector2), s1.body = head :: tl →
        ¬ (head.x = -1 ∨ head.x = 25 ∨ head.y = -1 ∨ head.y = 40) →
        ElementInDeque tl head = false → p1 ∉ tl →
        (head = p1 → s1.body = [⟨7, 9⟩, ⟨6, 9⟩, ⟨5, 9⟩]) →
        ∃ g1, (⟨g.snake.Reset, p1, 0, true, g.lastUpdateTime⟩ : Game).runStep
          f.keys f.time rest = some g1 ∧ g1.isRunning = true ∧ g1.food ∉ g1.snake.body ∧
          g1.snake.body = s1.body ∧ g1.snake.direction = s1.direction ∧
          ((g1.score = 0 ∧ g1.snake.addingSegment = false) ∨
           (g1.score = 1 ∧ g1.snake.addingSegment = true ∧
              s1.body = [⟨7, 9⟩, ⟨6, 9⟩, ⟨5, 9⟩])) := by
      intro head tl hb hedge helem hoff hmoved
      have hdraw : head = p1 → ∃ q ∈ rest, q ∉ s1.body := by
        intro hh
        have hb7 := hmoved hh
        have h7 : p1 = ⟨7, 9⟩ := by
          rw [hb7] at hb
          rw [← hh]
          exact ((List.cons.inj hb).1).symm
        refine ⟨p, hprest h7, ?_⟩
        rw [hb7]
        intro hc
        exact hpfree (by
          rcases List.mem_cons.mp hc with hc | hc
          · rw [hc]; exact List.mem_cons_self _ _
          · exact List.mem_cons_of_mem _ (by
              rcases List.mem_cons.mp hc with hc | hc
              · rw [hc]; exact List.mem_cons_self _ _
              · exact List.mem_cons_of_mem _ (by
                  rcases List.mem_cons.mp hc with hc | hc
                  · rw [hc]; exact List.mem_cons_self _ _
                  · exact absurd hc (List.not_mem_nil _))))
      obtain ⟨g1, hr, hrun1, hfood1, hb1, hd1, -, hcase⟩ :=
        runStep_clean (g := ⟨g.snake.Reset, p1, 0, true, g.lastUpdateTime⟩) rfl hupd hb hedge
          helem hoff hdraw
      refine ⟨g1, hr, hrun1, hfood1, hb1, hd1, ?_⟩
      rcases hcase with ⟨-, hsc, -, hsn⟩ | ⟨hh, hsc, hsn⟩
      · left
        exact ⟨hsc, by rw [hsn]; exact hadd1⟩
      · right
        refine ⟨hsc, by rw [hsn]; rfl, hmoved hh⟩
    by_cases hadd : g.snake.addingSegment = true
    · rw [if_pos hadd] at hbody1
      refine hfinish ⟨6, 9⟩ [⟨5, 9⟩, ⟨4, 9⟩, ⟨5, 9⟩] hbody1 (by decide) (by decide) ?_ ?_
      · simp [hp1x.2.1, hp1x.2.2]
      · intro hh; exact absurd hh.symm hp1x.1
    · rw [if_neg hadd] at hbody1
      by_cases hel : f.time - g.lastUpdateTime ≥ updateTime
      · rw [if_pos hel] at hbody1
        refine hfinish ⟨7, 9⟩ [⟨6, 9⟩, ⟨5, 9⟩] hbody1 (by decide) (by decide) ?_ (fun _ => hbody1)
        simp [hp1x.1, hp1x.2.1]
      · rw [if_neg hel] at hbody1
        refine hfinish ⟨6, 9⟩ [⟨5, 9⟩, ⟨4, 9⟩] hbody1 (by decide) (by decide) ?_ ?_
        · simp [hp1x.2.1, hp1x.2.2]
        · intro hh; exact absurd hh.symm hp1x.1
  obtain ⟨g1, hr, hrun1, hfood1, hb1, hd1, hscore⟩ := hstep
  have hbodyfinal := hb1.trans hbody1
  refine ⟨g1, hupdate.trans hr, hrun1, hfood1, hbodyfinal, ?_, ?_, ?_⟩
  · rcases hscore with hs | ⟨h1, h2, h3⟩
    · exact Or.inl hs
    · exact Or.inr ⟨h1, h2, hb1.trans h3⟩
  · intro hup hdown hleft hw hs ha
    rw [hd1]; exact hdir1 hup hdown hleft hw hs ha
  · intro hadd hel hup hdown hleft hw hs ha
    have hb : g1.snake.body = [⟨6, 9⟩, ⟨5, 9⟩, ⟨4, 9⟩] := by
      rw [hbodyfinal, if_neg (by simp [hadd]), if_neg (not_le.mpr hel)]
    refine ⟨hb, by rw [hd1]; exact hdir1 hup hdown hleft hw hs ha, ?_, hrun1, ?_⟩
    · rcases hscore with hs0 | ⟨-, -, h3⟩
      · exact hs0.1
      · rw [hb1.symm.trans hb] at h3
        exact absurd h3 (by decide)
    · rw [← hb]; exact hfood1

/-- C7, amended, at a game that ended at the right border, with the space bar
pressed a twentieth of a second after the last tick: the draw `(6,9)` is
rejected, the food goes to `(0,0)`, and the state after the call is the reset
state. -/
theorem Update_reset_witness :
    Game.endedAtRightBorder.isRunning = false ∧
    Frame.spaceAtOnce.keys.anyPressed = true ∧
    (∃ p ∈ Frame.spaceAtOnce.draws, p ∉ ([⟨7, 9⟩, ⟨6, 9⟩, ⟨5, 9⟩, ⟨4, 9⟩] : List Vector2)) ∧
    ∃ g1, Game.endedAtRightBorder.Update Frame.spaceAtOnce = some g1 ∧
      g1.snake.body = [⟨6, 9⟩, ⟨5, 9⟩, ⟨4, 9⟩] ∧ g1.snake.direction = ⟨1, 0⟩ ∧
      g1.score = 0 ∧ g1.isRunning = true ∧
      g1.food ∉ ([⟨6, 9⟩, ⟨5, 9⟩, ⟨4, 9⟩] : List Vector2) := by
  have hfree : ∃ p ∈ Frame.spaceAtOnce.draws,
      p ∉ ([⟨7, 9⟩, ⟨6, 9⟩, ⟨5, 9⟩, ⟨4, 9⟩] : List Vector2) :=
    ⟨⟨0, 0⟩, by simp [Frame.spaceAtOnce], by decide⟩
  obtain ⟨g1, hu, -, -, -, -, -, hres⟩ :=
    Update_reset Game.endedAtRightBorder Frame.spaceAtOnce rfl rfl hfree
  exact ⟨rfl, rfl, hfree, g1, hu,
    hres rfl (by norm_num [Frame.spaceAtOnce, Game.endedAtRightBorder,
      Game.headPastRightBorder, Game.GameOver, updateTime]) rfl rfl rfl rfl rfl rfl⟩

/-! ## The float arithmetic on small coordinates -/

theorem roundToFloat_of_le {n : Int} (h : n.natAbs ≤ 2 ^ 24) : roundToFloat n = n := by
  rw [roundToFloat, if_pos h]

theorem ElementInDequeWith_Vector2Equals (deque : List Vector2) (element : Vector2) :
    ElementInDequeWith Vector2Equals deque element = ElementInDeque deque element := by
  induction deque with
  | nil => rfl
  | cons d rest ih => rw [ElementInDequeWith, ElementInDeque, ih]

theorem Update_eq_UpdateWith (s : Snake) (k : Keys) (time last : ℚ) :
    s.UpdateWith Vector2Add k time last = s.Update k time last := rfl

theorem floatExponent_le : ∀ (fuel m k : Nat), m < 2 ^ (24 + k) → floatExponent fuel m ≤ k
  | 0, _, _, _ => Nat.zero_le _
  | fuel + 1, m, k, h => by
    rw [floatExponent]
    split_ifs with hm
    · exact Nat.zero_le _
    · match k, h with
      | 0, h => exact absurd h hm
      | k + 1, h =>
        have h2 : m / 2 < 2 ^ (24 + k) := by
          have : 2 ^ (24 + (k + 1)) = 2 * 2 ^ (24 + k) := by ring
          omega
        exact Nat.succ_le_succ (floatExponent_le fuel (m / 2) k h2)

theorem roundToFloat_natAbs_le (n : Int) (k : Nat) (h : n.natAbs < 2 ^ (24 + k)) :
    (roundToFloat n).natAbs ≤ n.natAbs + 2 ^ k := by
  rw [roundToFloat]
  split_ifs with hn
  · exact Nat.le_add_right _ _
  · have he := floatExponent_le n.natAbs n.natAbs k h
    have hpow : 2 ^ floatExponent n.natAbs n.natAbs ≤ 2 ^ k :=
      Nat.pow_le_pow_right (by decide) he
    simp only []
    rw [Int.natAbs_mul, Int.natAbs_ofNat]
    have hsign : (Int.sign n).natAbs ≤ 1 := by
      rcases Int.lt_trichotomy n 0 with h0 | h0 | h0
      · rw [Int.sign_eq_neg_one_of_neg h0]; decide
      · rw [h0]; decide
      · rw [Int.sign_eq_one_of_pos h0]; decide
    generalize floatExponent n.natAbs n.natAbs = e at hpow ⊢
    have hdiv : n.natAbs / 2 ^ e * 2 ^ e ≤ n.natAbs := Nat.div_mul_le_self _ _
    have hm : (if 2 * (n.natAbs % 2 ^ e) > 2 ^ e ∨
          (2 * (n.natAbs % 2 ^ e) = 2 ^ e ∧ n.natAbs / 2 ^ e % 2 = 1)
        then n.natAbs / 2 ^ e + 1 else n.natAbs / 2 ^ e) * 2 ^ e ≤ n.natAbs + 2 ^ k := by
      split_ifs
      · rw [Nat.add_mul, Nat.one_mul]; omega
      · omega
    calc (Int.sign n).natAbs * _ ≤ 1 * _ := Nat.mul_le_mul_right _ hsign
      _ = _ := Nat.one_mul _
      _ ≤ _ := hm

theorem componentEqualsEpsilon_of_small {a b : Int} (ha : a.natAbs < 1000000)
    (hb : b.natAbs < 1000000) : componentEqualsEpsilon a b = true ↔ a = b := by
  have hd : roundToFloat (a - b) = a - b := roundToFloat_of_le (by norm_num; omega)
  have hN : 8796093 * max 1 (max a.natAbs b.natAbs) ≤ 8796084203907 := by omega
  have hr := roundToFloat_natAbs_le ((8796093 * max 1 (max a.natAbs b.natAbs) : Nat) : Int) 19
    (by rw [Int.natAbs_ofNat]; norm_num; omega)
  rw [Int.natAbs_ofNat] at hr
  simp only [componentEqualsEpsilon, decide_eq_true_eq, hd]
  constructor
  · intro h
    norm_num at hr h
    omega
  · intro h
    subst h
    simp

theorem Vector2EqualsEpsilon_of_small {p q : Vector2} (hp : SmallCoordinates p)
    (hq : SmallCoordinates q) : Vector2EqualsEpsilon p q = Vector2Equals p q := by
  obtain ⟨px, py⟩ := p
  obtain ⟨qx, qy⟩ := q
  simp only [SmallCoordinates] at hp hq
  have hx : componentEqualsEpsilon px qx = decide (px = qx) :=
    Bool.eq_iff_iff.mpr (by simpa using componentEqualsEpsilon_of_small hp.1 hq.1)
  have hy : componentEqualsEpsilon py qy = decide (py = qy) :=
    Bool.eq_iff_iff.mpr (by simpa using componentEqualsEpsilon_of_small hp.2 hq.2)
  simp only [Vector2EqualsEpsilon, Vector2Equals, hx, hy]
  rfl

theorem ElementInDequeWith_epsilon_of_small {deque : List Vector2} {element : Vector2}
    (hd : ∀ p ∈ deque, SmallCoordinates p) (he : SmallCoordinates element) :
    ElementInDequeWith Vector2EqualsEpsilon deque element = ElementInDeque deque element := by
  induction deque with
  | nil => rfl
  | cons d rest ih =>
    rw [ElementInDequeWith, ElementInDeque,
      Vector2EqualsEpsilon_of_small (hd d (List.mem_cons_self _ _)) he,
      ih (fun p hp => hd p (List.mem_cons_of_mem _ hp))]

/-! ## C18 -/

theorem GenerateRandomPositionWith_nil (equals : Vector2 → Vector2 → Bool)
    (draws : List Vector2) : Food.GenerateRandomPositionWith equals draws [] = none := by
  induction draws with
  | nil => rfl
  | cons r more ih =>
    simp [Food.GenerateRandomPositionWith, ElementInDequeWith, ih]

theorem CheckCollisionWithBodyWith_of_small {g : Game}
    (hsmall : ∀ p ∈ g.snake.body, SmallCoordinates p) :
    g.CheckCollisionWithBodyWith Vector2EqualsEpsilon = g.CheckCollisionWithBody := by
  unfold Game.CheckCollisionWithBodyWith Game.CheckCollisionWithBody
  cases hb : g.snake.GetBody with
  | nil => rfl
  | cons head tl =>
    have hb2 : g.snake.body = head :: tl := hb
    rw [hb2] at hsmall
    simp only []
    rw [ElementInDequeWith_epsilon_of_small
      (fun p hp => hsmall p (List.mem_cons_of_mem _ hp)) (hsmall head (List.mem_cons_self _ _))]

theorem Snake_UpdateWith_inv {add : Vector2 → Vector2 → Vector2} {s s1 : Snake} {k : Keys}
    {time t t1 : ℚ} (hupd : s.UpdateWith add k time t = some (s1, t1)) :
    (UnitStep s.direction → UnitStep s1.direction) ∧
    ((∃ tail, s.body.getLast? = some tail ∧ s1.body = s.body ++ [add tail s.direction]) ∨
     (∃ head rest, s.body.dropLast = head :: rest ∧
        s1.body = add head s.direction :: head :: rest) ∨
     s1.body = s.body) := by
  unfold Snake.UpdateWith at hupd
  split at hupd
  · split at hupd
    · exact absurd hupd (by simp)
    · rename_i tail htail
      simp only [Option.some.injEq, Prod.mk.injEq] at hupd
      obtain ⟨hs, -⟩ := hupd
      subst hs
      exact ⟨fun hd => HandleInput_direction_unit _ _ hd,
        Or.inl ⟨tail, htail, by rw [HandleInput_body]⟩⟩
  · split at hupd
    · split at hupd
      · exact absurd hupd (by simp)
      · rename_i moved hmoved
        simp only [Option.some.injEq, Prod.mk.injEq] at hupd
        obtain ⟨hs, -⟩ := hupd
        subst hs
        unfold Snake.MoveWith at hmoved
        split at hmoved
        · exact absurd hmoved (by simp)
        · rename_i front rest hdrop
          simp only [Option.some.injEq] at hmoved
          subst hmoved
          exact ⟨fun hd => HandleInput_direction_unit _ _ hd,
            Or.inr (Or.inl ⟨front, rest, hdrop, by rw [HandleInput_body]⟩)⟩
    · simp only [Option.some.injEq, Prod.mk.injEq] at hupd
      obtain ⟨hs, -⟩ := hupd
      subst hs
      exact ⟨fun hd => HandleInput_direction_unit _ _ hd, Or.inr (Or.inr (by rw [HandleInput_body]))⟩

theorem UpdateWith_isSome_of_two_le (add : Vector2 → Vector2 → Vector2) (s : Snake) (k : Keys)
    (time t : ℚ) (hlen : 2 ≤ s.body.length) :
    ∃ s1 t1, s.UpdateWith add k time t = some (s1, t1) := by
  obtain ⟨body, dir, prev, adding⟩ := s
  match body, hlen with
  | a :: b :: rest, _ =>
    have hlast : ∃ tail, (a :: b :: rest).getLast? = some tail :=
      ⟨_, List.getLast?_eq_getLast _ (List.cons_ne_nil _ _)⟩
    obtain ⟨tail, htail⟩ := hlast
    cases adding with
    | true =>
      exact ⟨_, _, by simp only [Snake.UpdateWith, Snake.GetTailPosition, htail]; rfl⟩
    | false =>
      by_cases hel : updateTime ≤ time - t
      · exact ⟨_, _, by
          simp only [Snake.UpdateWith, IsTimeElapsed_of_le hel, Snake.MoveWith,
            List.dropLast_cons₂]
          rfl⟩
      · exact ⟨_, _, by
          simp only [Snake.UpdateWith, IsTimeElapsed_of_lt (not_le.mp hel)]
          rfl⟩

theorem UpdateWith_length_le {add : Vector2 → Vector2 → Vector2} {s s1 : Snake} {k : Keys}
    {time t t1 : ℚ} (hupd : s.UpdateWith add k time t = some (s1, t1)) :
    s.body.length ≤ s1.body.length := by
  obtain ⟨-, hcase⟩ := Snake_UpdateWith_inv hupd
  rcases hcase with ⟨tail, -, hb⟩ | ⟨head, rest, hdrop, hb⟩ | hb
  · rw [hb]; simp
  · have hlen : s.body.dropLast.length = (head :: rest).length := by rw [hdrop]
    rw [hb]
    simp only [List.length_dropLast, List.length_cons] at hlen ⊢
    omega
  · rw [hb]

theorem ReachableWith_length {add : Vector2 → Vector2 → Vector2} {s : Snake} {t : ℚ}
    (h : Snake.ReachableWith add s t) : 3 ≤ s.body.length := by
  induction h with
  | start => decide
  | update k time _ hupd ih => exact le_trans ih (UpdateWith_length_le hupd)
  | addSegment _ ih => exact ih
  | reset _ ih => exact le_refl 3

theorem OneFloatStepApart_initial :
    List.Chain' OneFloatStepApart [(⟨6, 9⟩ : Vector2), ⟨5, 9⟩, ⟨4, 9⟩] :=
  List.chain'_cons.mpr ⟨⟨⟨1, 0⟩, Or.inl rfl, Or.inl rfl⟩,
    List.chain'_cons.mpr ⟨⟨⟨1, 0⟩, Or.inl rfl, Or.inl rfl⟩, List.chain'_singleton _⟩⟩

theorem ReachableWith_float_shape {s : Snake} {t : ℚ}
    (h : Snake.ReachableWith Vector2AddFloat s t) :
    UnitStep s.direction ∧ List.Chain' OneFloatStepApart s.body := by
  induction h with
  | start => exact ⟨Or.inl rfl, OneFloatStepApart_initial⟩
  | update k time _ hupd ih =>
    obtain ⟨hdir, hcase⟩ := Snake_UpdateWith_inv hupd
    refine ⟨hdir ih.1, ?_⟩
    rcases hcase with ⟨tail, htail, hb⟩ | ⟨head, rest, hdrop, hb⟩ | hb
    · rw [hb]
      exact Chain_append_last _ tail _ ih.2 htail ⟨_, ih.1, Or.inr rfl⟩
    · rw [hb]
      have hc := Chain_dropLast _ ih.2
      rw [hdrop] at hc
      exact List.chain'_cons.mpr ⟨⟨_, ih.1, Or.inl rfl⟩, hc⟩
    · rw [hb]; exact ih.2
  | addSegment _ ih => exact ih
  | reset _ ih => exact ⟨Or.inl rfl, OneFloatStepApart_initial⟩

theorem Vector2AddFloat_of_below {b d : Vector2} (hb : BelowFloatLimit b) (hd : UnitStep d) :
    Vector2AddFloat b d = Vector2Add b d := by
  obtain ⟨bx, by1⟩ := b
  simp only [BelowFloatLimit] at hb
  have hx : (bx + d.x).natAbs ≤ 2 ^ 24 := by
    rcases hd with hd | hd | hd | hd <;> subst hd <;> simp only [] <;> omega
  have hy : (by1 + d.y).natAbs ≤ 2 ^ 24 := by
    rcases hd with hd | hd | hd | hd <;> subst hd <;> simp only [] <;> omega
  simp only [Vector2AddFloat, Vector2Add, roundToFloat_of_le hx, roundToFloat_of_le hy]

theorem OneStepApart_of_float {a b : Vector2} (h : OneFloatStepApart a b)
    (ha : BelowFloatLimit a) (hb : BelowFloatLimit b) : OneStepApart a b := by
  obtain ⟨d, hd, h1 | h1⟩ := h
  · rw [h1, Vector2AddFloat_of_below hb hd]
    exact OneStepApart_add_left b d hd
  · rw [h1, Vector2AddFloat_of_below ha hd]
    exact OneStepApart_add_right a d hd

theorem Chain_imp_mem {R S : Vector2 → Vector2 → Prop} :
    ∀ (l : List Vector2), List.Chain' R l → (∀ a b, a ∈ l → b ∈ l → R a b → S a b) →
      List.Chain' S l
  | [], _, _ => by simp
  | [_], _, _ => by simp
  | a :: b :: rest, h, himp => by
    have hab := (List.chain'_cons.mp h).1
    have htl := (List.chain'_cons.mp h).2
    refine List.chain'_cons.mpr ⟨himp a b (List.mem_cons_self _ _)
      (List.mem_cons_of_mem _ (List.mem_cons_self _ _)) hab, ?_⟩
    exact Chain_imp_mem (b :: rest) htl
      (fun x y hx hy => himp x y (List.mem_cons_of_mem _ hx) (List.mem_cons_of_mem _ hy))

/-! ## C10 -/

theorem cruising_succ (n : Nat) :
    Snake.cruising (n + 1) =
      { body := [⟨6 + n + 1, 9⟩, ⟨6 + n, 9⟩, ⟨5 + n, 9⟩], direction := ⟨1, 0⟩,
        prevDirection := ⟨1, 0⟩, addingSegment := false } := by
  simp only [Snake.cruising, Snake.mk.injEq, List.cons.injEq, Vector2.mk.injEq, and_true,
    true_and]
  push_cast
  refine ⟨by ring, by ring, by ring⟩

theorem cruising_step (n : Nat) (hn : 7 + n ≤ 2 ^ 24) :
    (Snake.cruising n).UpdateWith Vector2AddFloat Keys.none ((n : ℚ) + 1) (n : ℚ) =
      some (Snake.cruising (n + 1), (n : ℚ) + 1) := by
  have hel : updateTime ≤ ((n : ℚ) + 1) - (n : ℚ) := by
    norm_num [updateTime]
  have hx : (((6 : Int) + n) + 1).natAbs ≤ 2 ^ 24 := by omega
  have h9 : roundToFloat (9 + 0) = 9 := rfl
  have hadd : Vector2AddFloat ⟨6 + n, 9⟩ ⟨1, 0⟩ = ⟨6 + n + 1, 9⟩ := by
    simp only [Vector2AddFloat, roundToFloat_of_le hx, h9]
  have hmove : (Snake.cruising n).MoveWith Vector2AddFloat = some (Snake.cruising (n + 1)) := by
    rw [cruising_succ]
    simp only [Snake.MoveWith, Snake.cruising, List.dropLast_cons₂, List.dropLast_single, hadd]
  rw [Snake.UpdateWith, if_neg (by simp [Snake.cruising]), IsTimeElapsed_of_le hel]
  simp only [hmove, HandleInput_none]

theorem ReachableWith_cruising :
    ∀ n : Nat, 6 + n ≤ 2 ^ 24 → Snake.ReachableWith Vector2AddFloat (Snake.cruising n) (n : ℚ)
  | 0, _ => by
    have h : Snake.cruising 0 = Snake.initial := by
      simp [Snake.cruising, Snake.initial]
    rw [h, Nat.cast_zero]
    exact Snake.ReachableWith.start
  | n + 1, hn => by
    have ih := ReachableWith_cruising n (by omega)
    have hstep := cruising_step n (by omega)
    have hcast : ((n + 1 : Nat) : ℚ) = (n : ℚ) + 1 := by push_cast; ring
    rw [hcast]
    exact Snake.ReachableWith.update Keys.none ((n : ℚ) + 1) ih hstep

theorem cruising_last :
    Snake.cruising 16777210 =
      { body := [⟨16777216, 9⟩, ⟨16777215, 9⟩, ⟨16777214, 9⟩], direction := ⟨1, 0⟩,
        prevDirection := ⟨1, 0⟩, addingSegment := false } := by
  simp only [Snake.cruising, Snake.mk.injEq, List.cons.injEq, Vector2.mk.injEq, and_true,
    true_and]
  norm_num

theorem stuck_step :
    (Snake.cruising 16777210).UpdateWith Vector2AddFloat Keys.none 16777211 16777210 =
      some (Snake.stuckAtFloatLimit, 16777211) := by
  have hel : updateTime ≤ (16777211 : ℚ) - 16777210 := by
    norm_num [updateTime]
  have hadd : Vector2AddFloat ⟨16777216, 9⟩ ⟨1, 0⟩ = ⟨16777216, 9⟩ := by decide
  have hmove : (Snake.cruising 16777210).MoveWith Vector2AddFloat =
      some Snake.stuckAtFloatLimit := by
    rw [cruising_last]
    simp only [Snake.MoveWith, List.dropLast_cons₂, List.dropLast_single, hadd,
      Snake.stuckAtFloatLimit]
  rw [Snake.UpdateWith, if_neg (by simp [Snake.cruising]), IsTimeElapsed_of_le hel]
  simp only [hmove, HandleInput_none]

/-- C10, as stated, fails.  In float arithmetic, as the source computes, the
snake that is moved to the right by `16777210` timer moves has its head at
`x = 16777216 = 2 ^ 24`; the next timer move adds `1` to it, which rounds back to
`16777216`.  The state reached has head and neck on the same cell, so these two
consecutive body elements are not one grid step apart. -/
theorem Reachable_stuckAtFloatLimit_counterexample :
    Snake.ReachableWith Vector2AddFloat Snake.stuckAtFloatLimit 16777211 ∧
    Snake.stuckAtFloatLimit.body = [⟨16777216, 9⟩, ⟨16777216, 9⟩, ⟨16777215, 9⟩] ∧
    ¬ List.Chain' OneStepApart Snake.stuckAtFloatLimit.body := by
  refine ⟨?_, rfl, ?_⟩
  · have h := ReachableWith_cruising 16777210 (by norm_num)
    have hcast : ((16777210 : Nat) : ℚ) = (16777210 : ℚ) := by norm_num
    rw [hcast] at h
    exact Snake.ReachableWith.update Keys.none 16777211 h stuck_step
  · intro hc
    have h1 : OneStepApart (⟨16777216, 9⟩ : Vector2) ⟨16777216, 9⟩ :=
      (List.chain'_cons.mp hc).1
    revert h1
    decide

/-- C10, amended.  In every snake state reachable from the constructed snake by
calls of `Update` (any keys, any clock readings), `AddSegment` and `Reset`,
computed in float arithmetic as in the source: the direction is one of `(1,0)`,
`(-1,0)`, `(0,1)`, `(0,-1)`; and if all body coordinates have magnitude below
`2 ^ 24 = 16777216`, any two consecutive body elements differ by one of these
four vectors.  From such a state every further `Update` returns. -/
theorem Reachable_unit_direction_connected_body {s : Snake} {t : ℚ}
    (h : Snake.ReachableWith Vector2AddFloat s t) :
    UnitStep s.direction ∧
    ((∀ p ∈ s.body, BelowFloatLimit p) → List.Chain' OneStepApart s.body) ∧
    ∀ (k : Keys) (time : ℚ), ∃ s1 t1, s.UpdateWith Vector2AddFloat k time t = some (s1, t1) := by
  obtain ⟨hdir, hchain⟩ := ReachableWith_float_shape h
  refine ⟨hdir, ?_, fun k time => UpdateWith_isSome_of_two_le _ s k time t
    (le_trans (by decide) (ReachableWith_length h))⟩
  intro hbelow
  exact Chain_imp_mem s.body hchain
    (fun a b ha hb hab => OneStepApart_of_float hab (hbelow a ha) (hbelow b hb))

/-- C10, amended, at the snake reached by `AddSegment` and then an `Update` with
the up arrow pressed: body `[(6,9),(5,9),(4,9),(5,9)]`, direction `(0,-1)`. -/
theorem Reachable_unit_direction_connected_body_witness :
    Snake.ReachableWith Vector2AddFloat
      { body := [⟨6, 9⟩, ⟨5, 9⟩, ⟨4, 9⟩, ⟨5, 9⟩], direction := ⟨0, -1⟩,
        prevDirection := ⟨1, 0⟩, addingSegment := false } 0 ∧
    (∀ p ∈ ([⟨6, 9⟩, ⟨5, 9⟩, ⟨4, 9⟩, ⟨5, 9⟩] : List Vector2), BelowFloatLimit p) ∧
    UnitStep (⟨0, -1⟩ : Vector2) ∧
    List.Chain' OneStepApart [(⟨6, 9⟩ : Vector2), ⟨5, 9⟩, ⟨4, 9⟩, ⟨5, 9⟩] := by
  have hr : Snake.ReachableWith Vector2AddFloat
      { body := [⟨6, 9⟩, ⟨5, 9⟩, ⟨4, 9⟩, ⟨5, 9⟩], direction := ⟨0, -1⟩,
        prevDirection := ⟨1, 0⟩, addingSegment := false } 0 :=
    Snake.ReachableWith.update Keys.onlyUp 5
      (Snake.ReachableWith.addSegment Snake.ReachableWith.start) (by rfl)
  have h := Reachable_unit_direction_connected_body hr
  exact ⟨hr, by decide, h.1, h.2.1 (by decide)⟩

end RaySnake
